import Mathlib

/-!
# YM2413 driver: voice allocation and note mapping

A shallow embedding of `source/YM2413.h`.

* `uint8_t` / `uint16_t` values are natural numbers; where a C expression is
  converted to `uint8_t` the model reduces it modulo `256`.  A property stated
  for every natural argument holds in particular for every byte.
* The global `synth` and the global cursor `voiceItr` are fields of
  `State`, which every operation takes and returns.
* A call `writeRegister(addr, data)` is recorded as the pair `(addr, data)`
  appended to `State.writes`; the calls to `delay_us` only spend time and
  leave no mark on the state.
* The `while` / `for` loops of the driver run a counter from `0` up to
  `MAX_VOICES`; they are written by recursion on the number of iterations
  still to run, so the counter is `MAX_VOICES - rem`.
-/

namespace YM2413

/-! ## Constants and types -/

abbrev MAX_VOICES : Nat := 9

abbrev NOTE_OFF : Nat := 0

abbrev NOTE_ON : Nat := 1

/-- Enumeration constant `guitar` of `inst_t`. -/
abbrev guitar : Nat := 2

/-- One voice slot: `note` is a byte, `instrument` and `state` are 4-bit fields. -/
structure voice_t where
  note : Nat
  instrument : Nat
  state : Nat
deriving DecidableEq, Repr

/-- The voice table: an array of exactly `MAX_VOICES` slots. -/
structure synth_t where
  voices : Fin MAX_VOICES → voice_t

/-- The driver state: the globals `synth` and `voiceItr`, and the register
writes issued so far (oldest first). -/
structure State where
  synth : synth_t
  voiceItr : Nat
  writes : List (Nat × Nat)

/-- Lookup table `fnum_lookup`, C at index 0 up to B at index 11. -/
def fnum_lookup : List Nat :=
  [172, 181, 192, 204, 216, 229,
   242, 257, 272, 288, 305, 323]

/-! ## Static functions -/

/-- The call `writeRegister(addr, data)`, recorded in the write log. -/
def writeRegister (s : State) (addr data : Nat) : State :=
  { s with writes := s.writes ++ [(addr, data)] }

/-- Function `get_fnum`: `fnum_lookup[note % 12]`. -/
def get_fnum (note : Nat) : Nat :=
  fnum_lookup.get ⟨note % 12, Nat.mod_lt note (by decide)⟩

/-- Function `get_octave`: octave 7 above note 95, else `(note / 12) & 0x07`. -/
def get_octave (note : Nat) : Nat :=
  if note > 95 then 0x07 else (note / 12) &&& 0x07

/-- Function `setNote`: stores `note` and `state & 0xF` in slot `voice`, then
writes registers `0x10 + voice` and `0x20 + voice`. -/
def setNote (s : State) (voice : Fin MAX_VOICES) (note state : Nat) : State :=
  let fnum := get_fnum note
  let oct := get_octave note
  let old := s.synth.voices voice
  let s1 : State :=
    { s with synth :=
        { voices := Function.update s.synth.voices voice
            { old with note := note, state := state &&& 0xF } } }
  let data := (fnum &&& 0xFF) % 256
  let s2 := writeRegister s1 ((0x10 + voice.val) % 256) data
  let data := if state ≠ NOTE_OFF then 0x10 else 0x00
  let data := (data ||| ((fnum >>> 8) &&& 0x01)) % 256
  let data := (data ||| ((oct &&& 0x07) <<< 1)) % 256
  writeRegister s2 ((0x20 + voice.val) % 256) data

/-- Function `setInstrument`: stores `instrument & 0xF` in slot `voice` and
writes register `0x30 + voice`. -/
def setInstrument (s : State) (voice : Fin MAX_VOICES) (instrument vol : Nat) : State :=
  let data := ((instrument <<< 4) &&& 0xF0) % 256
  let data := (data ||| (vol &&& 0xF)) % 256
  let old := s.synth.voices voice
  let s1 : State :=
    { s with synth :=
        { voices := Function.update s.synth.voices voice
            { old with instrument := instrument &&& 0xF } } }
  writeRegister s1 ((0x30 + voice.val) % 256) data

/-! ## Public functions -/

/-- The scan loop of `noteOn` together with the code after it, entered with
loop counter `i = MAX_VOICES - rem`.  The result is the returned `int8_t` and
the state on return. -/
def noteOnLoop (s : State) (note instr vol : Nat) : Nat → Int × State
  | 0 =>
    -- `i = MAX_VOICES`: the loop is left, the cursor moves, `-1` is returned
    (-1, { s with voiceItr := ((s.voiceItr + 1) % MAX_VOICES) % 256 })
  | rem + 1 =>
    let i := MAX_VOICES - (rem + 1)
    let voice : Fin MAX_VOICES := ⟨(i + s.voiceItr) % MAX_VOICES, Nat.mod_lt _ (by decide)⟩
    if (s.synth.voices voice).state = NOTE_OFF then
      let s1 := setInstrument s voice instr ((vol >>> 3) % 256)
      let s2 := setNote s1 voice note NOTE_ON
      (0, { s2 with voiceItr := ((s2.voiceItr + 1) % MAX_VOICES) % 256 })
    else
      noteOnLoop s note instr vol rem

/-- Function `noteOn`. -/
def noteOn (s : State) (note instr vol : Nat) : Int × State :=
  noteOnLoop s note instr vol MAX_VOICES

/-- The scan loop of `noteOff` together with the code after it, entered with
loop counter `voice = MAX_VOICES - rem`. -/
def noteOffLoop (s : State) (note instr : Nat) : Nat → Int × State
  | 0 => (-1, s)
  | rem + 1 =>
    let voice : Fin MAX_VOICES := ⟨MAX_VOICES - (rem + 1), Nat.sub_lt (by decide) (Nat.succ_pos rem)⟩
    if (s.synth.voices voice).state = NOTE_ON ∧
        (s.synth.voices voice).note = note ∧
        (s.synth.voices voice).instrument = instr then
      (0, setNote s voice note NOTE_OFF)
    else
      noteOffLoop s note instr rem

/-- Function `noteOff`. -/
def noteOff (s : State) (note instr : Nat) : Int × State :=
  noteOffLoop s note instr MAX_VOICES

/-- The loop of `killAll`, entered with loop counter `voice = MAX_VOICES - rem`. -/
def killAllLoop (s : State) : Nat → State
  | 0 => s
  | rem + 1 =>
    let voice : Fin MAX_VOICES := ⟨MAX_VOICES - (rem + 1), Nat.sub_lt (by decide) (Nat.succ_pos rem)⟩
    let s1 := setNote s voice (s.synth.voices voice).note NOTE_OFF
    let s2 : State :=
      { s1 with synth :=
          { voices := Function.update s1.synth.voices voice
              { s1.synth.voices voice with state := NOTE_OFF } } }
    killAllLoop s2 rem

/-- Function `killAll`. -/
def killAll (s : State) : State :=
  killAllLoop s MAX_VOICES

/-! ## Names used to state the properties -/

/-- The byte `setNote` writes to register `0x10 + voice`. -/
def dataLo (note : Nat) : Nat := (get_fnum note &&& 0xFF) % 256

/-- The byte `setNote` writes to register `0x20 + voice`. -/
def dataHi (note state : Nat) : Nat :=
  ((((if state ≠ NOTE_OFF then 0x10 else 0x00) ||| ((get_fnum note >>> 8) &&& 0x01)) % 256)
    ||| ((get_octave note &&& 0x07) <<< 1)) % 256

/-- The slot examined by `noteOn` in the iteration with loop counter `i`. -/
def slotAt (s : State) (i : Nat) : Fin MAX_VOICES :=
  ⟨(i + s.voiceItr) % MAX_VOICES, Nat.mod_lt _ (by decide)⟩

/-- The state `noteOn` returns in when it claims slot `v`. -/
def claimed (s : State) (v : Fin MAX_VOICES) (note instr vol : Nat) : State :=
  { setNote (setInstrument s v instr ((vol >>> 3) % 256)) v note NOTE_ON with
    voiceItr := ((s.voiceItr + 1) % MAX_VOICES) % 256 }

/-- Slot `v` is On and holds exactly the pair `(note, instr)`: the test of `noteOff`. -/
def Matches (s : State) (note instr : Nat) (v : Fin MAX_VOICES) : Prop :=
  (s.synth.voices v).state = NOTE_ON ∧
    (s.synth.voices v).note = note ∧
    (s.synth.voices v).instrument = instr

instance decidableMatches (s : State) (note instr : Nat) (v : Fin MAX_VOICES) :
    Decidable (Matches s note instr v) := by
  unfold Matches; infer_instance

/-- Number of slots whose `state` field equals `st`. -/
def stateCount (s : State) (st : Nat) : Nat :=
  (Finset.univ.filter (fun j : Fin MAX_VOICES => (s.synth.voices j).state = st)).card

/-- Number of slots that are On. -/
def onCount (s : State) : Nat := stateCount s NOTE_ON

/-- A run of `noteOn` calls, one per `(note, instr, vol)` triple, with the
returned codes in call order and the final state. -/
def noteOnSeq (s : State) : List (Nat × Nat × Nat) → List Int × State
  | [] => ([], s)
  | a :: rest =>
    let r := noteOn s a.1 a.2.1 a.2.2
    let t := noteOnSeq r.2 rest
    (r.1 :: t.1, t.2)

/-- The table reached from an all-Off table with cursor `c` after `k` successful
`noteOn` calls: the cursor is `(c + k) % 9` and exactly the `k` slots
`c, c + 1, ..` (modulo 9) are On. -/
def SweepInv (c k : Nat) (t : State) : Prop :=
  t.voiceItr = (c + k) % MAX_VOICES ∧
    ∀ j : Fin MAX_VOICES, (t.synth.voices j).state =
      if (j.val + MAX_VOICES - c) % MAX_VOICES < k then NOTE_ON else NOTE_OFF

/-- What the call `noteOn(a)` made in state `t` does when it claims the slot at
offset `k` from `c`. -/
def ClaimsAt (c k : Nat) (t : State) (a : Nat × Nat × Nat) : Prop :=
  ∃ v : Fin MAX_VOICES, v.val = (c + k) % MAX_VOICES ∧
    (t.synth.voices v).state = NOTE_OFF ∧
    (noteOn t a.1 a.2.1 a.2.2).1 = 0 ∧
    (noteOn t a.1 a.2.1 a.2.2).2.synth.voices v = ⟨a.1, a.2.1 &&& 0xF, NOTE_ON⟩ ∧
    ∀ j, j ≠ v → (noteOn t a.1 a.2.1 a.2.2).2.synth.voices j = t.synth.voices j

/-- The two register writes `setNote(v, note of slot v, NOTE_OFF)` issues in `killAll`. -/
def killWrites (s : State) (v : Fin MAX_VOICES) : List (Nat × Nat) :=
  [(0x10 + v.val, dataLo (s.synth.voices v).note),
   (0x20 + v.val, dataHi (s.synth.voices v).note NOTE_OFF)]

/-- The state after one iteration of the `killAll` loop at slot `v`. -/
def killStep (s : State) (v : Fin MAX_VOICES) : State where
  synth := ⟨Function.update s.synth.voices v
    ⟨(s.synth.voices v).note, (s.synth.voices v).instrument, NOTE_OFF⟩⟩
  voiceItr := s.voiceItr
  writes := s.writes ++ killWrites s v

/-! ## Sample states -/

/-- A table with every slot Off and the cursor at 4. -/
def emptyTable : State :=
  ⟨⟨fun _ => ⟨0, 0, NOTE_OFF⟩⟩, 4, []⟩

/-- A table with every slot On. -/
def fullTable : State :=
  ⟨⟨fun j => ⟨60 + j.val, 3, NOTE_ON⟩⟩, 4, []⟩

/-- A table with the cursor at 7 in which slots 0 and 8 sound note 60 on
instrument 3, slot 7 sounds note 60 on instrument 5, and slots 1..6 are Off. -/
def mixedTable : State :=
  ⟨⟨fun j =>
      if j.val = 0 ∨ j.val = 8 then ⟨60, 3, NOTE_ON⟩
      else if j.val = 7 then ⟨60, 5, NOTE_ON⟩
      else ⟨0, 2, NOTE_OFF⟩⟩, 7, []⟩

/-- Nine `(note, instr, vol)` triples. -/
def nineNotes : List (Nat × Nat × Nat) :=
  [(60, 0, 127), (62, 1, 120), (64, 2, 110), (65, 3, 100), (67, 4, 90),
   (69, 5, 80), (71, 6, 70), (72, 7, 60), (74, 8, 50)]

/-! ## Function `resetSynth` -/

/-- The loop of `resetSynth`, entered with loop counter `i = MAX_VOICES - rem`. -/
def resetSynthLoop (s : State) : Nat → State
  | 0 => s
  | rem + 1 =>
    let i : Fin MAX_VOICES := ⟨MAX_VOICES - (rem + 1), Nat.sub_lt (by decide) (Nat.succ_pos rem)⟩
    let s1 := setNote s i 0 NOTE_OFF
    let s2 := setInstrument s1 i guitar 0xF
    resetSynthLoop s2 rem

/-- Function `resetSynth`.  Its assignments to the lines `IC`, `CS`, `WE`, `ADDR`
and the delay before the first register write act on the pins only and leave
`State` as it is. -/
def resetSynth (s : State) : State :=
  let s1 := writeRegister s 0x0E 0x00
  let s2 := resetSynthLoop s1 MAX_VOICES
  { s2 with voiceItr := 0 }

/-- The state after one iteration of the `resetSynth` loop at slot `v`. -/
def resetStep (s : State) (v : Fin MAX_VOICES) : State :=
  setInstrument (setNote s v 0 NOTE_OFF) v guitar 0xF

/-- The allocator invariant: the cursor is below `MAX_VOICES`, every slot is Off
or On and every stored instrument is below 16. -/
def AllocInv (s : State) : Prop :=
  s.voiceItr < MAX_VOICES ∧
    ∀ j : Fin MAX_VOICES,
      ((s.synth.voices j).state = NOTE_OFF ∨ (s.synth.voices j).state = NOTE_ON) ∧
        (s.synth.voices j).instrument < 16

/-! ## The body of `writeRegister` on the bus lines -/

namespace Bus

/-- One statement of the driver that acts on the bus: an assignment to one of
the lines `WE`, `ADDR`, `CS`, `IC`, an assignment to port `P3`, or a call of
`delay_us`. -/
inductive Op where
  | WE (level : Nat)
  | ADDR (level : Nat)
  | CS (level : Nat)
  | IC (level : Nat)
  | P3 (value : Nat)
  | delay_us (waitTime : Nat)
deriving DecidableEq, Repr

/-- The levels of the four control lines and the value on port `P3`. -/
structure Lines where
  ADDR : Nat
  WE : Nat
  CS : Nat
  IC : Nat
  P3 : Nat
deriving DecidableEq, Repr

/-- The statements of `writeRegister(addr, data)`, in program order. -/
def writeRegister (addr data : Nat) : List Op :=
  [ Op.WE 0, Op.ADDR 0, Op.delay_us 2,
    Op.P3 addr,
    Op.delay_us 2,
    Op.CS 0,
    Op.delay_us 2,
    Op.CS 1, Op.WE 1, Op.ADDR 1, Op.delay_us 2,
    Op.P3 data,
    Op.WE 0, Op.delay_us 2,
    Op.CS 0,
    Op.delay_us 2,
    Op.WE 1, Op.CS 1 ]

/-- The lines after one statement. -/
def step (l : Lines) : Op → Lines
  | Op.WE b => { l with WE := b }
  | Op.ADDR b => { l with ADDR := b }
  | Op.CS b => { l with CS := b }
  | Op.IC b => { l with IC := b }
  | Op.P3 v => { l with P3 := v }
  | Op.delay_us _ => l

/-- The lines after a sequence of statements. -/
def run (l : Lines) (ops : List Op) : Lines :=
  ops.foldl step l

/-- The statement is an assignment to port `P3`. -/
def isPortWrite : Op → Bool
  | Op.P3 _ => true
  | _ => false

end Bus

end YM2413

/-!
# Main program: MIDI decoder, key scan and mode switch

A shallow embedding of `source/synth.c` (with `bitState` of
`source/keyboard.h`).

* The globals `state`, `message`, `kbdInstrument` and the driver state are
  fields of `Machine`.  The field `calls` is a log of the calls made to
  `noteOn`, `noteOff` and `killAll`, in call order.
* A received `char` is the natural number of its byte (`0..255`); the decoder
  only looks at it through masks and stores it where it is below `0x80`, so the
  signedness of `char` plays no part.
* `getchar`, `checkModePin` and `updateKeyboard` read the hardware: the byte,
  the pin level and the key bitmaps they deliver are arguments of the step.
  The `printf` of the key scan writes to the UART only.
* The interrupt routines `SW_ISR` and `T2_ISR` run between statements and are
  not part of a step.
-/

namespace Synth

open YM2413

/-! ## Constants and types -/

abbrev NOTE_ON_OPCODE : Nat := 0x90

abbrev NOTE_OFF_OPCODE : Nat := 0x80

abbrev NOTE_OFFSET : Nat := 36

abbrev KEYBOARD_VOL : Nat := 0x2F

/-- Constant `NUM_KEYS` of `keyboard.h`. -/
abbrev NUM_KEYS : Nat := 37

inductive state_t where
  | WAITING
  | ONE_BYTE
  | TWO_BYTES
  | KEYBOARD_MODE
deriving DecidableEq, Repr

structure message_t where
  opcode : Nat
  instrument : Nat
  note : Nat
  vol : Nat
deriving DecidableEq, Repr

/-- The key bitmaps: two arrays of `(NUM_KEYS / 8) + 1` bytes. -/
structure keyboard_t where
  current : Fin (NUM_KEYS / 8 + 1) → Nat
  last : Fin (NUM_KEYS / 8 + 1) → Nat

/-- A call made to the voice allocator. -/
inductive Call where
  | noteOn (note instr vol : Nat)
  | noteOff (note instr : Nat)
  | killAll
deriving DecidableEq, Repr

/-- The globals of the program and the log of allocator calls. -/
structure Machine where
  state : state_t
  message : message_t
  kbdInstrument : Nat
  chip : State
  calls : List Call

/-! ## Calls to the allocator -/

/-- The statement `noteOn(note, instr, vol);` (the returned value is dropped). -/
def callNoteOn (g : Machine) (note instr vol : Nat) : Machine :=
  { g with chip := (noteOn g.chip note instr vol).2,
           calls := g.calls ++ [Call.noteOn note instr vol] }

/-- The statement `noteOff(note, instr);` (the returned value is dropped). -/
def callNoteOff (g : Machine) (note instr : Nat) : Machine :=
  { g with chip := (noteOff g.chip note instr).2,
           calls := g.calls ++ [Call.noteOff note instr] }

/-- The statement `killAll();`. -/
def callKillAll (g : Machine) : Machine :=
  { g with chip := killAll g.chip, calls := g.calls ++ [Call.killAll] }

/-! ## The decoder -/

/-- Function `waiting`: the returned `state_t` and the globals on return. -/
def waiting (g : Machine) (input : Nat) : state_t × Machine :=
  if input &&& 0x80 ≠ 0 then
    if input &&& 0xF0 = 0xF0 then
      (g.state, g)
    else
      let g1 : Machine := { g with message := { g.message with instrument := input &&& 0x0F } }
      if input &&& 0xF0 = NOTE_ON_OPCODE then
        (state_t.ONE_BYTE, { g1 with message := { g1.message with opcode := NOTE_ON_OPCODE } })
      else if input &&& 0xF0 = NOTE_OFF_OPCODE then
        (state_t.ONE_BYTE, { g1 with message := { g1.message with opcode := NOTE_OFF_OPCODE } })
      else
        (state_t.WAITING, g1)
  else
    (state_t.WAITING, g)

/-- Function `one_byte`. -/
def one_byte (g : Machine) (input : Nat) : state_t × Machine :=
  if input &&& 0x80 ≠ 0 then
    waiting g input
  else
    (state_t.TWO_BYTES, { g with message := { g.message with note := input } })

/-- Function `two_bytes`; `~message.vol` converted to `uint8_t` is the low byte
of the 16-bit complement. -/
def two_bytes (g : Machine) (input : Nat) : state_t × Machine :=
  if input &&& 0x80 ≠ 0 then
    waiting g input
  else if g.message.opcode = NOTE_ON_OPCODE then
    let g1 : Machine := { g with message := { g.message with vol := input } }
    if g1.message.vol = 0x00 then
      (state_t.ONE_BYTE, callNoteOff g1 g1.message.note g1.message.instrument)
    else
      (state_t.ONE_BYTE,
        callNoteOn g1 g1.message.note g1.message.instrument ((0xFFFF - g1.message.vol) % 256))
  else
    let g1 : Machine := { g with message := { g.message with vol := input } }
    (state_t.ONE_BYTE, callNoteOff g1 g1.message.note g1.message.instrument)

/-- The `switch(state)` of `main`: the byte goes to the function of the current
state and `state` takes the returned value; in `KEYBOARD_MODE` nothing is done. -/
def dispatch (g : Machine) (input : Nat) : Machine :=
  match g.state with
  | state_t.WAITING => { (waiting g input).2 with state := (waiting g input).1 }
  | state_t.ONE_BYTE => { (one_byte g input).2 with state := (one_byte g input).1 }
  | state_t.TWO_BYTES => { (two_bytes g input).2 with state := (two_bytes g input).1 }
  | state_t.KEYBOARD_MODE => g

/-- The decoder fed a sequence of bytes, one `dispatch` per byte. -/
def feed (g : Machine) (bytes : List Nat) : Machine :=
  bytes.foldl dispatch g

/-! ## The key scan and the main loop -/

/-- The byte `arr[k]`; an index outside the array reads 0. -/
def byteAt (arr : Fin (NUM_KEYS / 8 + 1) → Nat) (k : Nat) : Nat :=
  if h : k < NUM_KEYS / 8 + 1 then arr ⟨k, h⟩ else 0

/-- Function `bitState` of `keyboard.h`. -/
def bitState (arr : Fin (NUM_KEYS / 8 + 1) → Nat) (bit : Nat) : Nat :=
  if byteAt arr (bit / 8) &&& (1 <<< (bit % 8)) ≠ 0 then 1 else 0

/-- The `for` loop over the keys in the keyboard branch of `main`, entered
with loop counter `i = NUM_KEYS - rem`. -/
def keyScan (g : Machine) (keyboard : keyboard_t) : Nat → Machine
  | 0 => g
  | rem + 1 =>
    let i := NUM_KEYS - (rem + 1)
    let g1 :=
      if bitState keyboard.current i ^^^ bitState keyboard.last i ≠ 0 then
        if bitState keyboard.current i ≠ 0 then
          callNoteOn g ((i + NOTE_OFFSET) % 256) g.kbdInstrument KEYBOARD_VOL
        else
          callNoteOff g ((i + NOTE_OFFSET) % 256) g.kbdInstrument
      else g
    keyScan g1 keyboard rem

/-- One iteration of the `while(1)` loop of `main`: `modePin` is what
`checkModePin` returns (true for MIDI), `input` the byte `getchar` returns and
`keyboard` the bitmaps `updateKeyboard` leaves. -/
def mainLoop (g : Machine) (modePin : Bool) (input : Nat) (keyboard : keyboard_t) : Machine :=
  if modePin then
    let g1 : Machine :=
      if g.state = state_t.KEYBOARD_MODE then
        { callKillAll g with state := state_t.WAITING }
      else g
    dispatch g1 input
  else
    let g1 : Machine :=
      if g.state ≠ state_t.KEYBOARD_MODE then
        { callKillAll g with state := state_t.KEYBOARD_MODE }
      else g
    keyScan g1 keyboard NUM_KEYS

/-! ## Names used to state the properties of the key scan -/

/-- One iteration of the key-scan loop, for key index `i`. -/
def keyStep (g : Machine) (keyboard : keyboard_t) (i : Nat) : Machine :=
  if bitState keyboard.current i ^^^ bitState keyboard.last i ≠ 0 then
    if bitState keyboard.current i ≠ 0 then
      callNoteOn g ((i + NOTE_OFFSET) % 256) g.kbdInstrument KEYBOARD_VOL
    else
      callNoteOff g ((i + NOTE_OFFSET) % 256) g.kbdInstrument
  else g

/-- The call expected for key `i`, in the words of the specification: none when
the current bit equals the last bit, `noteOn(i + 36, instr, 0x2F)` when the
current bit is set, `noteOff(i + 36, instr)` when it is clear. -/
def keyEvent (keyboard : keyboard_t) (instr : Nat) (i : Nat) : Option Call :=
  if bitState keyboard.current i = bitState keyboard.last i then none
  else if bitState keyboard.current i = 1 then some (Call.noteOn (i + 36) instr 0x2F)
  else some (Call.noteOff (i + 36) instr)

/-! ## Sample machines -/

/-- A machine in `WAITING` with an empty voice table and keyboard instrument piano. -/
def idleMachine : Machine :=
  ⟨state_t.WAITING, ⟨0, 0, 0, 0⟩, 3, emptyTable, []⟩

/-- A machine in `ONE_BYTE` after the status byte `0x90`. -/
def midMessage : Machine :=
  ⟨state_t.ONE_BYTE, ⟨0x90, 0, 0, 0⟩, 3, emptyTable, []⟩

/-- A machine in `KEYBOARD_MODE`. -/
def keyboardMachine : Machine :=
  ⟨state_t.KEYBOARD_MODE, ⟨0, 0, 0, 0⟩, 3, emptyTable, []⟩

/-- Key bitmaps in which key 0 was released, key 1 was pressed and key 2 stays held. -/
def sampleKeys : keyboard_t :=
  ⟨fun k => if k.val = 0 then 6 else 0, fun k => if k.val = 0 then 5 else 0⟩

end Synth

namespace YM2413

/-! ## Names used to state the properties of `resetSynth` and `setNote` -/

/-- The three register writes of one iteration of the `resetSynth` loop at
slot `v`: `setNote(v, 0, NOTE_OFF)` then `setInstrument(v, guitar, 0xF)`. -/
def resetWrites (v : Fin MAX_VOICES) : List (Nat × Nat) :=
  [(0x10 + v.val, dataLo 0), (0x20 + v.val, dataHi 0 NOTE_OFF), (0x30 + v.val, 0x2F)]

/-- The key-on bit `setNote` puts into register `0x20 + voice`: 1 unless
`state` is `NOTE_OFF`. -/
def gateBit (state : Nat) : Nat :=
  if state ≠ NOTE_OFF then 1 else 0

end YM2413

/-!
# YM2420 driver

A shallow embedding of the parts of `source/YM2420.h` that differ from
`source/YM2413.h`: the frequency table, `get_octave`, `setNote`,
`setInstrument` and `noteOn`.  The typedefs `voice_t` and `synth_t`, the
constants and the globals `synth` and `voiceItr` are declared as in
`YM2413.h`, so the state is `YM2413.State`.
-/

namespace YM2420

open YM2413 (State voice_t MAX_VOICES NOTE_OFF NOTE_ON)

/-- Lookup table `fnum_lookup` of `YM2420.h`. -/
def fnum_lookup : List Nat :=
  [172, 181, 192, 204, 216, 229,
   242, 257, 272, 288, 205, 323]

/-- The call `writeRegister(addr, data)`, recorded in the write log. -/
def writeRegister (s : State) (addr data : Nat) : State :=
  { s with writes := s.writes ++ [(addr, data)] }

/-- Function `get_fnum`: `fnum_lookup[note % 12]`. -/
def get_fnum (note : Nat) : Nat :=
  fnum_lookup.get ⟨note % 12, Nat.mod_lt note (by decide)⟩

/-- Function `get_octave`: octave 7 above note 95, else `note / 12`. -/
def get_octave (note : Nat) : Nat :=
  if note > 95 then 0x07 else (note / 12) % 256

/-- Function `setNote`: writes the octave and the upper part of the frequency
number to `0x10 + voice`, then the key-on bit and the low nibble of the
frequency number to `0x20 + voice`. -/
def setNote (s : State) (voice : Fin MAX_VOICES) (note state : Nat) : State :=
  let fnum := get_fnum note
  let oct := get_octave note
  let data := ((oct <<< 5) ||| (fnum >>> 4)) % 256
  let old := s.synth.voices voice
  let s1 : State :=
    { s with synth :=
        { voices := Function.update s.synth.voices voice
            { old with note := note, state := state &&& 0xF } } }
  let s2 := writeRegister s1 ((0x10 + voice.val) % 256) data
  let data := if state ≠ NOTE_OFF then 0x10 else 0x00
  let data := (data ||| (fnum &&& 0xF)) % 256
  writeRegister s2 ((0x20 + voice.val) % 256) data

/-- Function `setInstrument`: stores `instrument & 0xF` in slot `voice` and
writes register `0x30 + voice`. -/
def setInstrument (s : State) (voice : Fin MAX_VOICES) (instrument : Nat) : State :=
  let data := ((instrument <<< 4) &&& 0xF0) % 256
  let old := s.synth.voices voice
  let s1 : State :=
    { s with synth :=
        { voices := Function.update s.synth.voices voice
            { old with instrument := instrument &&& 0xF } } }
  writeRegister s1 ((0x30 + voice.val) % 256) data

/-- The scan loop of `noteOn` together with the code after it, entered with
loop counter `i = MAX_VOICES - rem`.  The success branch returns without
touching `voiceItr`; after the loop `++voiceItr` is followed by the reset to 0
at `MAX_VOICES`. -/
def noteOnLoop (s : State) (note instr : Nat) : Nat → Int × State
  | 0 =>
    let itr := (s.voiceItr + 1) % 256
    (-1, { s with voiceItr := if itr = MAX_VOICES then 0 else itr })
  | rem + 1 =>
    let i := MAX_VOICES - (rem + 1)
    let voice : Fin MAX_VOICES := ⟨(i + s.voiceItr) % MAX_VOICES, Nat.mod_lt _ (by decide)⟩
    if (s.synth.voices voice).state = NOTE_OFF then
      let s1 := setInstrument s voice instr
      let s2 := setNote s1 voice note NOTE_ON
      (0, s2)
    else
      noteOnLoop s note instr rem

/-- Function `noteOn` of `YM2420.h`. -/
def noteOn (s : State) (note instr : Nat) : Int × State :=
  noteOnLoop s note instr MAX_VOICES

end YM2420

namespace Synth

open YM2413

/-! ## The key index of `updateKeyboard` -/

/-- Constant `ROWS` of `keyboard.h`. -/
abbrev ROWS : Nat := 6

/-- Constant `COLS` of `keyboard.h`. -/
abbrev COLS : Nat := 7

/-- The assignment `key = (col * ROWS) + row - (ROWS - 1);` of
`updateKeyboard`: the `int` value reduced to `uint8_t`. -/
def keyIndex (row col : Nat) : Nat :=
  ((((col * ROWS : Nat) : Int) + (row : Int) - ((ROWS : Int) - 1)) % 256).toNat

/-- The key indices `updateKeyboard` passes to `bitState`, `bitOn` and
`bitOff`, in the order of its two nested loops (`row` outside, `col` inside). -/
def scannedKeys : List Nat :=
  (List.range ROWS).flatMap (fun row => (List.range COLS).map (fun col => keyIndex row col))

/-! ## Names used to state the properties of the decoder -/

/-- The byte is in `0xF0..0xFF`. -/
def isSystemByte (b : Nat) : Bool :=
  decide (0xF0 ≤ b) && decide (b ≤ 0xFF)

/-- An allocator call the decoder may make after the bytes `seen`: a `noteOn`
or `noteOff` whose note is a received byte at most 127 and whose instrument is
at most 15; the volume argument of a `noteOn` is the byte `~vel` of a received
velocity byte `vel` in `1..127`. -/
def DecoderCallOk (seen : List Nat) : Call → Prop
  | Call.noteOn note instr vol =>
      note ∈ seen ∧ note ≤ 127 ∧ instr ≤ 15 ∧
        ∃ vel, vel ∈ seen ∧ 1 ≤ vel ∧ vel ≤ 127 ∧ vol = 255 - vel
  | Call.noteOff note instr => note ∈ seen ∧ note ≤ 127 ∧ instr ≤ 15
  | Call.killAll => False

/-- The decoder invariant after the bytes `seen`: the state is not
`KEYBOARD_MODE`, outside `WAITING` the captured instrument is at most 15, and
in `TWO_BYTES` the captured note is a received byte at most 127. -/
def DecoderInv (seen : List Nat) (g : Machine) : Prop :=
  g.state ≠ state_t.KEYBOARD_MODE ∧
    (g.state ≠ state_t.WAITING → g.message.instrument ≤ 15) ∧
    (g.state = state_t.TWO_BYTES → g.message.note ∈ seen ∧ g.message.note ≤ 127)

/-- A machine in `TWO_BYTES` after `[0x92, 0x40]`, on a table with Off slots. -/
def midVelocity : Machine :=
  ⟨state_t.TWO_BYTES, ⟨0x90, 2, 0x40, 0⟩, 3, mixedTable, []⟩

end Synth

namespace YM2413

/-! ## Effect of the static functions -/

theorem setInstrument_voices (s : State) (v : Fin MAX_VOICES) (i vol : Nat) :
    (setInstrument s v i vol).synth.voices =
      Function.update s.synth.voices v { s.synth.voices v with instrument := i &&& 0xF } := rfl

theorem setInstrument_voiceItr (s : State) (v : Fin MAX_VOICES) (i vol : Nat) :
    (setInstrument s v i vol).voiceItr = s.voiceItr := rfl

theorem setInstrument_writes (s : State) (v : Fin MAX_VOICES) (i vol : Nat) :
    (setInstrument s v i vol).writes =
      s.writes ++ [((0x30 + v.val) % 256,
        ((((i <<< 4) &&& 0xF0) % 256) ||| (vol &&& 0xF)) % 256)] := rfl

theorem setNote_voices (s : State) (v : Fin MAX_VOICES) (n st : Nat) :
    (setNote s v n st).synth.voices =
      Function.update s.synth.voices v
        { s.synth.voices v with note := n, state := st &&& 0xF } := rfl

theorem setNote_voiceItr (s : State) (v : Fin MAX_VOICES) (n st : Nat) :
    (setNote s v n st).voiceItr = s.voiceItr := rfl

theorem setNote_writes (s : State) (v : Fin MAX_VOICES) (n st : Nat) :
    (setNote s v n st).writes =
      s.writes ++ [((0x10 + v.val) % 256, dataLo n), ((0x20 + v.val) % 256, dataHi n st)] := by
  simp [setNote, writeRegister, dataLo, dataHi]

theorem claimed_voices (s : State) (v : Fin MAX_VOICES) (note instr vol : Nat) :
    (claimed s v note instr vol).synth.voices =
      Function.update s.synth.voices v ⟨note, instr &&& 0xF, NOTE_ON⟩ := by
  simp [claimed, setNote_voices, setInstrument_voices]

theorem noteOnLoop_succ (s : State) (note instr vol : Nat) (rem : Nat) :
    noteOnLoop s note instr vol (rem + 1) =
      if (s.synth.voices (slotAt s (MAX_VOICES - (rem + 1)))).state = NOTE_OFF then
        (0, claimed s (slotAt s (MAX_VOICES - (rem + 1))) note instr vol)
      else noteOnLoop s note instr vol rem := rfl

theorem noteOnLoop_miss (s : State) (note instr vol : Nat) (rem : Nat)
    (h : ∀ i, MAX_VOICES - rem ≤ i → i < MAX_VOICES →
      (s.synth.voices (slotAt s i)).state ≠ NOTE_OFF) :
    noteOnLoop s note instr vol rem
      = (-1, { s with voiceItr := ((s.voiceItr + 1) % MAX_VOICES) % 256 }) := by
  induction rem with
  | zero => rfl
  | succ r ih =>
    have h0 := h (MAX_VOICES - (r + 1)) (le_refl _) (Nat.sub_lt (by decide) (Nat.succ_pos r))
    have ih1 := ih (fun i hi hlt => h i (by omega) hlt)
    rw [noteOnLoop_succ, if_neg h0]
    exact ih1

theorem noteOnLoop_hit (s : State) (note instr vol : Nat) (rem k : Nat)
    (hrem : rem ≤ MAX_VOICES) (hlo : MAX_VOICES - rem ≤ k) (hk : k < MAX_VOICES)
    (hoff : (s.synth.voices (slotAt s k)).state = NOTE_OFF)
    (hmin : ∀ i, MAX_VOICES - rem ≤ i → i < k →
      (s.synth.voices (slotAt s i)).state ≠ NOTE_OFF) :
    noteOnLoop s note instr vol rem = (0, claimed s (slotAt s k) note instr vol) := by
  induction rem with
  | zero => omega
  | succ r ih =>
    rw [noteOnLoop_succ]
    by_cases hik : MAX_VOICES - (r + 1) = k
    · subst hik
      rw [if_pos hoff]
    · have hlt : MAX_VOICES - (r + 1) < k := by omega
      rw [if_neg (hmin _ (le_refl _) hlt)]
      exact ih (by omega) (by omega) (fun i hi hik => hmin i (by omega) hik)

theorem slotAt_surj (s : State) (j : Fin MAX_VOICES) :
    ∃ i, i < MAX_VOICES ∧ slotAt s i = j := by
  refine ⟨(j.val + MAX_VOICES - s.voiceItr % MAX_VOICES) % MAX_VOICES,
    Nat.mod_lt _ (by decide), ?_⟩
  apply Fin.ext
  have hj := j.isLt
  simp only [slotAt, MAX_VOICES] at hj ⊢
  omega

theorem exists_least_off (s : State) (h : ∃ j, (s.synth.voices j).state = NOTE_OFF) :
    ∃ k, k < MAX_VOICES ∧ (s.synth.voices (slotAt s k)).state = NOTE_OFF ∧
      ∀ i, i < k → (s.synth.voices (slotAt s i)).state ≠ NOTE_OFF := by
  obtain ⟨j, hj⟩ := h
  obtain ⟨i0, hi0, hs⟩ := slotAt_surj s j
  have hex : ∃ i, (s.synth.voices (slotAt s i)).state = NOTE_OFF := ⟨i0, by rw [hs]; exact hj⟩
  refine ⟨Nat.find hex, ?_, Nat.find_spec hex, fun i hi => Nat.find_min hex hi⟩
  exact lt_of_le_of_lt (Nat.find_min' hex (by rw [hs]; exact hj)) hi0

theorem noteOn_of_least_off (s : State) (note instr vol k : Nat) (hk : k < MAX_VOICES)
    (hoff : (s.synth.voices (slotAt s k)).state = NOTE_OFF)
    (hmin : ∀ i, i < k → (s.synth.voices (slotAt s i)).state ≠ NOTE_OFF) :
    noteOn s note instr vol = (0, claimed s (slotAt s k) note instr vol) :=
  noteOnLoop_hit s note instr vol MAX_VOICES k (le_refl _) (by omega) hk hoff
    (fun i _ hik => hmin i hik)

theorem noteOn_of_no_off (s : State) (note instr vol : Nat)
    (h : ∀ j, (s.synth.voices j).state ≠ NOTE_OFF) :
    noteOn s note instr vol
      = (-1, { s with voiceItr := ((s.voiceItr + 1) % MAX_VOICES) % 256 }) :=
  noteOnLoop_miss s note instr vol MAX_VOICES (fun i _ _ => h (slotAt s i))

/-- C1: when some slot is Off (whatever the cursor), `noteOn` returns 0 and claims the slot
`(voiceItr + k) % 9` for the least offset `k` in `0..8` whose slot is Off; that
slot then holds `note`, `instr & 0xF` and state On, every other slot is
unchanged. -/
theorem noteOn_claims_first_off_slot (s : State) (note instr vol : Nat)
    (hoff : ∃ j, (s.synth.voices j).state = NOTE_OFF) :
    ∃ (k : Nat) (v : Fin MAX_VOICES), k < MAX_VOICES ∧
      v.val = (s.voiceItr + k) % MAX_VOICES ∧
      (s.synth.voices v).state = NOTE_OFF ∧
      (∀ (i : Nat) (u : Fin MAX_VOICES), i < k → u.val = (s.voiceItr + i) % MAX_VOICES →
        (s.synth.voices u).state ≠ NOTE_OFF) ∧
      (noteOn s note instr vol).1 = 0 ∧
      (noteOn s note instr vol).2.synth.voices v = ⟨note, instr &&& 0xF, NOTE_ON⟩ ∧
      ∀ j, j ≠ v → (noteOn s note instr vol).2.synth.voices j = s.synth.voices j := by
  obtain ⟨k, hk, hko, hmin⟩ := exists_least_off s hoff
  have hrun := noteOn_of_least_off s note instr vol k hk hko hmin
  refine ⟨k, slotAt s k, hk, ?_, hko, ?_, ?_, ?_, ?_⟩
  · simp only [slotAt]; rw [Nat.add_comm]
  · intro i u hi hu
    have hus : u = slotAt s i := by
      apply Fin.ext; simp only [slotAt]; rw [hu, Nat.add_comm]
    rw [hus]; exact hmin i hi
  · rw [hrun]
  · rw [hrun]; simp only [claimed_voices]; exact Function.update_same _ _ _
  · intro j hj
    rw [hrun]; simp only [claimed_voices]; exact Function.update_noteq hj _ _

/-- Witness for C1 on `mixedTable`, whose slot 1 is Off. -/
theorem noteOn_claims_first_off_slot_witness :
    (∃ j, (mixedTable.synth.voices j).state = NOTE_OFF) ∧
      (noteOn mixedTable 64 2 100).1 = 0 := by
  have hoff : ∃ j, (mixedTable.synth.voices j).state = NOTE_OFF := ⟨⟨1, by decide⟩, by decide⟩
  obtain ⟨_, _, _, _, _, _, h, _⟩ := noteOn_claims_first_off_slot mixedTable 64 2 100 hoff
  exact ⟨hoff, h⟩

/-- C2: whatever `noteOn` returns (0 or -1), the cursor afterwards is
`(old voiceItr + 1) % 9`. -/
theorem noteOn_advances_cursor (s : State) (note instr vol : Nat) :
    ((noteOn s note instr vol).1 = 0 ∨ (noteOn s note instr vol).1 = -1) ∧
      (noteOn s note instr vol).2.voiceItr = (s.voiceItr + 1) % MAX_VOICES := by
  have hmod : ((s.voiceItr + 1) % MAX_VOICES) % 256 = (s.voiceItr + 1) % MAX_VOICES := by
    simp only [MAX_VOICES]; omega
  by_cases hoff : ∃ j, (s.synth.voices j).state = NOTE_OFF
  · obtain ⟨k, hk, hko, hmin⟩ := exists_least_off s hoff
    rw [noteOn_of_least_off s note instr vol k hk hko hmin]
    exact ⟨Or.inl rfl, hmod⟩
  · rw [noteOn_of_no_off s note instr vol (fun j hj => hoff ⟨j, hj⟩)]
    exact ⟨Or.inr rfl, hmod⟩

theorem noteOffLoop_succ (s : State) (note instr : Nat) (rem : Nat) :
    noteOffLoop s note instr (rem + 1) =
      if Matches s note instr ⟨MAX_VOICES - (rem + 1), Nat.sub_lt (by decide) (Nat.succ_pos rem)⟩ then
        (0, setNote s ⟨MAX_VOICES - (rem + 1), Nat.sub_lt (by decide) (Nat.succ_pos rem)⟩
          note NOTE_OFF)
      else noteOffLoop s note instr rem := rfl

theorem noteOffLoop_miss (s : State) (note instr : Nat) (rem : Nat)
    (h : ∀ v : Fin MAX_VOICES, MAX_VOICES - rem ≤ v.val → ¬ Matches s note instr v) :
    noteOffLoop s note instr rem = (-1, s) := by
  induction rem with
  | zero => rfl
  | succ r ih =>
    rw [noteOffLoop_succ, if_neg (h _ (le_refl _))]
    exact ih (fun v hv => h v (by omega))

theorem noteOffLoop_hit (s : State) (note instr : Nat) (rem : Nat) (v : Fin MAX_VOICES)
    (hrem : rem ≤ MAX_VOICES) (hlo : MAX_VOICES - rem ≤ v.val)
    (hv : Matches s note instr v)
    (hmin : ∀ u : Fin MAX_VOICES, MAX_VOICES - rem ≤ u.val → u < v → ¬ Matches s note instr u) :
    noteOffLoop s note instr rem = (0, setNote s v note NOTE_OFF) := by
  induction rem with
  | zero => have := v.isLt; omega
  | succ r ih =>
    rw [noteOffLoop_succ]
    by_cases hik : MAX_VOICES - (r + 1) = v.val
    · have hveq : (⟨MAX_VOICES - (r + 1), Nat.sub_lt (by decide) (Nat.succ_pos r)⟩ :
          Fin MAX_VOICES) = v := Fin.ext hik
      rw [hveq, if_pos hv]
    · have hlt : MAX_VOICES - (r + 1) < v.val := by omega
      rw [if_neg (hmin _ (le_refl _) (Fin.mk_lt_of_lt_val hlt))]
      exact ih (by omega) (by omega) (fun u hu huv => hmin u (by omega) huv)

theorem exists_least_match (s : State) (note instr : Nat)
    (h : ∃ v, Matches s note instr v) :
    ∃ v, Matches s note instr v ∧ ∀ u, u < v → ¬ Matches s note instr u := by
  classical
  obtain ⟨v0, hv0⟩ := h
  have hex : ∃ n, ∃ h : n < MAX_VOICES, Matches s note instr ⟨n, h⟩ := ⟨v0.val, v0.isLt, hv0⟩
  obtain ⟨hlt, hm⟩ := Nat.find_spec hex
  refine ⟨⟨Nat.find hex, hlt⟩, hm, fun u hu hmu => ?_⟩
  exact Nat.find_min hex (m := u.val) hu ⟨u.isLt, hmu⟩

theorem noteOff_of_least_match (s : State) (note instr : Nat) (v : Fin MAX_VOICES)
    (hv : Matches s note instr v) (hmin : ∀ u, u < v → ¬ Matches s note instr u) :
    noteOff s note instr = (0, setNote s v note NOTE_OFF) :=
  noteOffLoop_hit s note instr MAX_VOICES v (le_refl _) (by omega) hv (fun u _ huv => hmin u huv)

theorem noteOff_of_no_match (s : State) (note instr : Nat)
    (h : ∀ v, ¬ Matches s note instr v) :
    noteOff s note instr = (-1, s) :=
  noteOffLoop_miss s note instr MAX_VOICES (fun v _ => h v)

/-- C5: `noteOff` returns 0 exactly when some slot is On with this note and
this instrument (and -1 otherwise); on success the lowest-index such slot
becomes Off with its note and instrument kept, every other slot and the cursor
are unchanged; on -1 the table, the cursor and the write log are unchanged. -/
theorem noteOff_matching_and_frame (s : State) (note instr : Nat) :
    ((noteOff s note instr).1 = 0 ↔
        ∃ v, (s.synth.voices v).state = NOTE_ON ∧ (s.synth.voices v).note = note ∧
          (s.synth.voices v).instrument = instr) ∧
      ((noteOff s note instr).1 = 0 ∨ (noteOff s note instr).1 = -1) ∧
      (∀ v : Fin MAX_VOICES,
        ((s.synth.voices v).state = NOTE_ON ∧ (s.synth.voices v).note = note ∧
          (s.synth.voices v).instrument = instr) →
        (∀ u : Fin MAX_VOICES, u < v →
          ¬ ((s.synth.voices u).state = NOTE_ON ∧ (s.synth.voices u).note = note ∧
            (s.synth.voices u).instrument = instr)) →
        (noteOff s note instr).2.synth.voices v =
            ⟨(s.synth.voices v).note, (s.synth.voices v).instrument, NOTE_OFF⟩ ∧
          (∀ j, j ≠ v → (noteOff s note instr).2.synth.voices j = s.synth.voices j) ∧
          (noteOff s note instr).2.voiceItr = s.voiceItr) ∧
      ((noteOff s note instr).1 = -1 →
        (noteOff s note instr).2.synth.voices = s.synth.voices ∧
          (noteOff s note instr).2.voiceItr = s.voiceItr ∧
          (noteOff s note instr).2.writes = s.writes) := by
  by_cases hex : ∃ v, Matches s note instr v
  · obtain ⟨w, hw, hwmin⟩ := exists_least_match s note instr hex
    have hrun := noteOff_of_least_match s note instr w hw hwmin
    refine ⟨?_, ?_, ?_, ?_⟩
    · rw [hrun]; exact ⟨fun _ => hex, fun _ => rfl⟩
    · rw [hrun]; exact Or.inl rfl
    · intro v hv hvmin
      have hvw : v = w := by
        rcases lt_trichotomy v w with h | h | h
        · exact absurd hv (hwmin v h)
        · exact h
        · exact absurd hw (hvmin w h)
      subst hvw
      rw [hrun]
      refine ⟨?_, ?_, ?_⟩
      · rw [setNote_voices, Function.update_same]
        obtain ⟨_, hn, _⟩ := hv
        rw [hn]
        rfl
      · intro j hj
        rw [setNote_voices]; exact Function.update_noteq hj _ _
      · rfl
    · rw [hrun]; intro h
      have h0 : (0 : Int) = -1 := h
      exact absurd h0 (by decide)
  · have hnone : ∀ v, ¬ Matches s note instr v := fun v hv => hex ⟨v, hv⟩
    have hrun := noteOff_of_no_match s note instr hnone
    refine ⟨?_, ?_, ?_, ?_⟩
    · rw [hrun]
      refine ⟨fun h => ?_, fun h => absurd h hex⟩
      have h0 : (-1 : Int) = 0 := h
      exact absurd h0 (by decide)
    · rw [hrun]; exact Or.inr rfl
    · intro v hv; exact absurd hv (hnone v)
    · rw [hrun]; intro _; exact ⟨rfl, rfl, rfl⟩

/-- Witness for C5 on `mixedTable`: `noteOff(60, 3)` releases slot 0 and leaves
slot 8 (same pair) and slot 7 (same pitch, other instrument) On; `noteOff(61, 3)`
finds nothing. -/
theorem noteOff_matching_and_frame_witness :
    (noteOff mixedTable 60 3).1 = 0 ∧
      (noteOff mixedTable 60 3).2.synth.voices ⟨0, by decide⟩ = ⟨60, 3, NOTE_OFF⟩ ∧
      (noteOff mixedTable 60 3).2.synth.voices ⟨8, by decide⟩ = ⟨60, 3, NOTE_ON⟩ ∧
      (noteOff mixedTable 60 3).2.synth.voices ⟨7, by decide⟩ = ⟨60, 5, NOTE_ON⟩ ∧
      (noteOff mixedTable 60 3).2.voiceItr = 7 ∧
      (noteOff mixedTable 61 3).1 = -1 ∧
      (noteOff mixedTable 61 3).2.writes = [] := by
  have h := noteOff_matching_and_frame mixedTable 60 3
  have hzero : (noteOff mixedTable 60 3).1 = 0 :=
    h.1.mpr ⟨⟨0, by decide⟩, by decide⟩
  have hlow := h.2.2.1 ⟨0, by decide⟩ (by decide) (by decide)
  have h8 := hlow.2.1 ⟨8, by decide⟩ (by decide)
  have h7 := hlow.2.1 ⟨7, by decide⟩ (by decide)
  have hmiss : (noteOff mixedTable 61 3).1 = -1 := by decide
  have hframe := (noteOff_matching_and_frame mixedTable 61 3).2.2.2 hmiss
  exact ⟨hzero, hlow.1, h8, h7, hlow.2.2, hmiss, hframe.2.2⟩

theorem stateCount_le (s : State) (st : Nat) : stateCount s st ≤ MAX_VOICES := by
  unfold stateCount
  calc (Finset.univ.filter (fun j : Fin MAX_VOICES => (s.synth.voices j).state = st)).card
      ≤ (Finset.univ : Finset (Fin MAX_VOICES)).card := Finset.card_filter_le _ _
    _ = MAX_VOICES := by simp

theorem stateCount_eq_zero (s : State) (st : Nat) (h : stateCount s st = 0) :
    ∀ j, (s.synth.voices j).state ≠ st := by
  intro j hj
  unfold stateCount at h
  rw [Finset.card_eq_zero] at h
  have hmem : j ∈ Finset.univ.filter (fun j : Fin MAX_VOICES => (s.synth.voices j).state = st) :=
    Finset.mem_filter.mpr ⟨Finset.mem_univ j, hj⟩
  rw [h] at hmem
  exact absurd hmem (Finset.not_mem_empty j)

/-- Overwriting one slot changes the count of a state by what that slot lost and gained. -/
theorem stateCount_update (s t : State) (k : Fin MAX_VOICES) (x : voice_t) (st : Nat)
    (ht : t.synth.voices = Function.update s.synth.voices k x) :
    stateCount t st + (if (s.synth.voices k).state = st then 1 else 0)
      = stateCount s st + (if x.state = st then 1 else 0) := by
  unfold stateCount
  rw [Finset.card_filter, Finset.card_filter]
  rw [← Finset.add_sum_erase Finset.univ _ (Finset.mem_univ k)]
  rw [← Finset.add_sum_erase Finset.univ
    (fun j => if (s.synth.voices j).state = st then 1 else 0) (Finset.mem_univ k)]
  have hrest : ∑ j in Finset.univ.erase k, (if (t.synth.voices j).state = st then 1 else 0)
      = ∑ j in Finset.univ.erase k, (if (s.synth.voices j).state = st then 1 else 0) := by
    apply Finset.sum_congr rfl
    intro j hj
    rw [ht, Function.update_noteq (Finset.ne_of_mem_erase hj)]
  rw [hrest, ht, Function.update_same]
  omega

theorem noteOn_fails_iff (s : State) (note instr vol : Nat) :
    (noteOn s note instr vol).1 = -1 ↔ ∀ j, (s.synth.voices j).state ≠ NOTE_OFF := by
  constructor
  · intro h j hj
    obtain ⟨k, hk, hko, hmin⟩ := exists_least_off s ⟨j, hj⟩
    rw [noteOn_of_least_off s note instr vol k hk hko hmin] at h
    have h0 : (0 : Int) = -1 := h
    exact absurd h0 (by decide)
  · intro h
    rw [noteOn_of_no_off s note instr vol h]

theorem noteOn_success_stateCount (s : State) (note instr vol : Nat)
    (h : (noteOn s note instr vol).1 = 0) :
    stateCount (noteOn s note instr vol).2 NOTE_OFF + 1 = stateCount s NOTE_OFF ∧
      stateCount (noteOn s note instr vol).2 NOTE_ON = stateCount s NOTE_ON + 1 := by
  have hoff : ∃ j, (s.synth.voices j).state = NOTE_OFF := by
    by_contra hno
    have hall : ∀ j, (s.synth.voices j).state ≠ NOTE_OFF := fun j hj => hno ⟨j, hj⟩
    rw [noteOn_of_no_off s note instr vol hall] at h
    have h0 : (-1 : Int) = 0 := h
    exact absurd h0 (by decide)
  obtain ⟨k, hk, hko, hmin⟩ := exists_least_off s hoff
  rw [noteOn_of_least_off s note instr vol k hk hko hmin]
  have hv := claimed_voices s (slotAt s k) note instr vol
  have h0 := stateCount_update s (claimed s (slotAt s k) note instr vol) (slotAt s k)
    ⟨note, instr &&& 0xF, NOTE_ON⟩ NOTE_OFF hv
  have h1 := stateCount_update s (claimed s (slotAt s k) note instr vol) (slotAt s k)
    ⟨note, instr &&& 0xF, NOTE_ON⟩ NOTE_ON hv
  rw [hko] at h0 h1
  simp at h0 h1
  exact ⟨h0, h1⟩

theorem noteOnSeq_all_success (args : List (Nat × Nat × Nat)) :
    ∀ s : State, (∀ c ∈ (noteOnSeq s args).1, c = 0) →
      stateCount (noteOnSeq s args).2 NOTE_OFF + args.length = stateCount s NOTE_OFF := by
  induction args with
  | nil => intro s _; rfl
  | cons a rest ih =>
    intro s h
    have hhead : (noteOn s a.1 a.2.1 a.2.2).1 = 0 :=
      h _ (List.mem_cons_self _ _)
    have htail := ih (noteOn s a.1 a.2.1 a.2.2).2
      (fun c hc => h c (List.mem_cons_of_mem _ hc))
    have hstep := (noteOn_success_stateCount s a.1 a.2.1 a.2.2 hhead).1
    have hfin : (noteOnSeq s (a :: rest)).2
        = (noteOnSeq (noteOn s a.1 a.2.1 a.2.2).2 rest).2 := rfl
    rw [hfin, List.length_cons]
    omega

/-- C3: `noteOn` returns -1 exactly when no slot is Off, which for a table
whose slots are all Off or On means that all 9 slots are On; a call that returns
-1 leaves every slot unchanged and emits no register write; and after nine
`noteOn` calls that all returned 0 a tenth call returns -1 and leaves the table
unchanged. -/
theorem noteOn_exhaustion (s : State) (note instr vol : Nat) :
    ((noteOn s note instr vol).1 = -1 ↔ ∀ j, (s.synth.voices j).state ≠ NOTE_OFF) ∧
      ((∀ j, (s.synth.voices j).state = NOTE_OFF ∨ (s.synth.voices j).state = NOTE_ON) →
        ((noteOn s note instr vol).1 = -1 ↔ ∀ j, (s.synth.voices j).state = NOTE_ON)) ∧
      ((noteOn s note instr vol).1 = -1 →
        (noteOn s note instr vol).2.synth.voices = s.synth.voices ∧
          (noteOn s note instr vol).2.writes = s.writes) ∧
      (∀ args : List (Nat × Nat × Nat), args.length = MAX_VOICES →
        (∀ c ∈ (noteOnSeq s args).1, c = 0) →
        (noteOn (noteOnSeq s args).2 note instr vol).1 = -1 ∧
          (noteOn (noteOnSeq s args).2 note instr vol).2.synth.voices
            = (noteOnSeq s args).2.synth.voices ∧
          (noteOn (noteOnSeq s args).2 note instr vol).2.writes
            = (noteOnSeq s args).2.writes) := by
  have hfail : ∀ t : State, (∀ j, (t.synth.voices j).state ≠ NOTE_OFF) →
      (noteOn t note instr vol).1 = -1 ∧
        (noteOn t note instr vol).2.synth.voices = t.synth.voices ∧
        (noteOn t note instr vol).2.writes = t.writes := by
    intro t ht
    rw [noteOn_of_no_off t note instr vol ht]
    exact ⟨rfl, rfl, rfl⟩
  refine ⟨noteOn_fails_iff s note instr vol, ?_, ?_, ?_⟩
  · intro hst
    rw [noteOn_fails_iff]
    constructor
    · intro h j
      rcases hst j with h0 | h1
      · exact absurd h0 (h j)
      · exact h1
    · intro h j hj
      have := h j
      rw [hj] at this
      exact absurd this (by decide)
  · intro h
    exact (hfail s ((noteOn_fails_iff s note instr vol).mp h)).2
  · intro args hlen hall
    have hcount := noteOnSeq_all_success args s hall
    have hle := stateCount_le s NOTE_OFF
    have hzero : stateCount (noteOnSeq s args).2 NOTE_OFF = 0 := by omega
    exact hfail _ (stateCount_eq_zero _ _ hzero)

/-- Witness for C3: a call on `fullTable`, and a tenth call after nine successful
calls on `emptyTable`. -/
theorem noteOn_exhaustion_witness :
    (∀ j, (fullTable.synth.voices j).state = NOTE_OFF ∨
        (fullTable.synth.voices j).state = NOTE_ON) ∧
      (noteOn fullTable 64 2 100).1 = -1 ∧
      (noteOn fullTable 64 2 100).2.synth.voices = fullTable.synth.voices ∧
      (noteOn fullTable 64 2 100).2.writes = fullTable.writes ∧
      nineNotes.length = MAX_VOICES ∧
      (∀ c ∈ (noteOnSeq emptyTable nineNotes).1, c = 0) ∧
      (noteOn (noteOnSeq emptyTable nineNotes).2 64 2 100).1 = -1 := by
  have hst : ∀ j, (fullTable.synth.voices j).state = NOTE_OFF ∨
      (fullTable.synth.voices j).state = NOTE_ON := fun _ => Or.inr rfl
  have hfail : (noteOn fullTable 64 2 100).1 = -1 :=
    ((noteOn_exhaustion fullTable 64 2 100).2.1 hst).mpr (fun _ => rfl)
  have hframe := (noteOn_exhaustion fullTable 64 2 100).2.2.1 hfail
  have hall : ∀ c ∈ (noteOnSeq emptyTable nineNotes).1, c = 0 := by decide
  have hlen : nineNotes.length = MAX_VOICES := by decide
  have htenth := (noteOn_exhaustion emptyTable 64 2 100).2.2.2 nineNotes hlen hall
  exact ⟨hst, hfail, hframe.1, hframe.2, hlen, hall, htenth.1⟩

theorem sweep_step (c k : Nat) (hc : c < MAX_VOICES) (hk : k < MAX_VOICES) (t : State)
    (a : Nat × Nat × Nat) (h : SweepInv c k t) :
    ClaimsAt c k t a ∧ SweepInv c (k + 1) (noteOn t a.1 a.2.1 a.2.2).2 := by
  obtain ⟨hcur, hst⟩ := h
  have hval : (slotAt t 0).val = (c + k) % MAX_VOICES := by
    simp only [slotAt, hcur, MAX_VOICES]; omega
  have hoff : (t.synth.voices (slotAt t 0)).state = NOTE_OFF := by
    rw [hst, if_neg]
    rw [hval]; simp only [MAX_VOICES] at hc hk ⊢; omega
  have hrun := noteOn_of_least_off t a.1 a.2.1 a.2.2 0 (by decide) hoff
    (fun i hi => absurd hi (Nat.not_lt_zero i))
  have hvoices := claimed_voices t (slotAt t 0) a.1 a.2.1 a.2.2
  refine ⟨⟨slotAt t 0, hval, hoff, ?_, ?_, ?_⟩, ?_, ?_⟩
  · rw [hrun]
  · rw [hrun]; simp only [hvoices]; exact Function.update_same _ _ _
  · intro j hj
    rw [hrun]; simp only [hvoices]; exact Function.update_noteq hj _ _
  · rw [hrun]
    show ((t.voiceItr + 1) % MAX_VOICES) % 256 = (c + (k + 1)) % MAX_VOICES
    rw [hcur]; simp only [MAX_VOICES]; omega
  · intro j
    rw [hrun]; simp only [hvoices]
    by_cases hj : j = slotAt t 0
    · subst hj
      rw [Function.update_same, if_pos]
      rw [hval]; simp only [MAX_VOICES] at hc hk ⊢; omega
    · rw [Function.update_noteq hj, hst]
      have hne : j.val ≠ (c + k) % MAX_VOICES := fun h => hj (Fin.ext (h.trans hval.symm))
      have hjlt := j.isLt
      have hiff : (j.val + MAX_VOICES - c) % MAX_VOICES < k + 1 ↔
          (j.val + MAX_VOICES - c) % MAX_VOICES < k := by
        simp only [MAX_VOICES] at hc hk hne hjlt ⊢; omega
      simp only [hiff]

theorem sweep_run (c : Nat) (hc : c < MAX_VOICES) (args : List (Nat × Nat × Nat)) :
    ∀ (k0 : Nat) (s : State), SweepInv c k0 s → k0 + args.length ≤ MAX_VOICES →
      (∀ r ∈ (noteOnSeq s args).1, r = 0) ∧
        SweepInv c (k0 + args.length) (noteOnSeq s args).2 ∧
        ∀ (i : Nat) (a : Nat × Nat × Nat), args[i]? = some a →
          ClaimsAt c (k0 + i) (noteOnSeq s (args.take i)).2 a := by
  induction args with
  | nil =>
    intro k0 s h _
    refine ⟨fun r hr => absurd hr (List.not_mem_nil r), h, fun i a hia => ?_⟩
    simp at hia
  | cons b rest ih =>
    intro k0 s h hlen
    rw [List.length_cons] at hlen
    obtain ⟨hclaim, hnext⟩ := sweep_step c k0 hc (by omega) s b h
    obtain ⟨hcodes, hfin, hsteps⟩ := ih (k0 + 1) (noteOn s b.1 b.2.1 b.2.2).2 hnext (by omega)
    have hzero : (noteOn s b.1 b.2.1 b.2.2).1 = 0 := by
      obtain ⟨_, _, _, h0, _⟩ := hclaim
      exact h0
    refine ⟨?_, ?_, ?_⟩
    · intro r hr
      have hr1 : r ∈ (noteOn s b.1 b.2.1 b.2.2).1 ::
          (noteOnSeq (noteOn s b.1 b.2.1 b.2.2).2 rest).1 := hr
      rcases List.mem_cons.mp hr1 with h1 | h2
      · rw [h1]; exact hzero
      · exact hcodes r h2
    · have hfin1 : (noteOnSeq s (b :: rest)).2
          = (noteOnSeq (noteOn s b.1 b.2.1 b.2.2).2 rest).2 := rfl
      rw [hfin1, List.length_cons]
      have hk : k0 + (rest.length + 1) = k0 + 1 + rest.length := by omega
      rw [hk]; exact hfin
    · intro i a hia
      cases i with
      | zero =>
        simp only [List.getElem?_cons_zero, Option.some.injEq] at hia
        subst hia
        exact hclaim
      | succ i1 =>
        simp only [List.getElem?_cons_succ] at hia
        have hstep := hsteps i1 a hia
        have hk : k0 + (i1 + 1) = k0 + 1 + i1 := by omega
        rw [hk]
        exact hstep

theorem noteOnSeq_length (args : List (Nat × Nat × Nat)) :
    ∀ s : State, (noteOnSeq s args).1.length = args.length := by
  induction args with
  | nil => intro s; rfl
  | cons a rest ih =>
    intro s
    show ((noteOnSeq (noteOn s a.1 a.2.1 a.2.2).2 rest).1.length + 1) = rest.length + 1
    rw [ih]

/-- C4: from an all-Off table with cursor `c < 9`, nine consecutive `noteOn`
calls all return 0, the `k`-th call (`k = 0..8`) claims slot `(c + k) % 9`, these
nine slot indices are pairwise distinct, and afterwards every slot is On. -/
theorem noteOn_round_robin (s : State) (args : List (Nat × Nat × Nat))
    (hc : s.voiceItr < MAX_VOICES)
    (hempty : ∀ j, (s.synth.voices j).state = NOTE_OFF)
    (hlen : args.length = MAX_VOICES) :
    (noteOnSeq s args).1 = List.replicate MAX_VOICES 0 ∧
      (∀ (k : Nat) (a : Nat × Nat × Nat), args[k]? = some a →
        ∃ v : Fin MAX_VOICES, v.val = (s.voiceItr + k) % MAX_VOICES ∧
          ((noteOnSeq s (args.take k)).2.synth.voices v).state = NOTE_OFF ∧
          (noteOn (noteOnSeq s (args.take k)).2 a.1 a.2.1 a.2.2).1 = 0 ∧
          (noteOn (noteOnSeq s (args.take k)).2 a.1 a.2.1 a.2.2).2.synth.voices v
            = ⟨a.1, a.2.1 &&& 0xF, NOTE_ON⟩ ∧
          ∀ j, j ≠ v →
            (noteOn (noteOnSeq s (args.take k)).2 a.1 a.2.1 a.2.2).2.synth.voices j
              = (noteOnSeq s (args.take k)).2.synth.voices j) ∧
      (∀ k k1 : Nat, k < MAX_VOICES → k1 < MAX_VOICES →
        (s.voiceItr + k) % MAX_VOICES = (s.voiceItr + k1) % MAX_VOICES → k = k1) ∧
      (∀ j, ((noteOnSeq s args).2.synth.voices j).state = NOTE_ON) := by
  have hinit : SweepInv s.voiceItr 0 s := by
    refine ⟨?_, fun j => ?_⟩
    · simp only [MAX_VOICES] at hc ⊢; omega
    · rw [hempty j, if_neg (Nat.not_lt_zero _)]
  obtain ⟨hcodes, hfin, hsteps⟩ :=
    sweep_run s.voiceItr hc args 0 s hinit (by rw [hlen]; exact Nat.le_of_eq (Nat.zero_add _))
  refine ⟨?_, ?_, ?_, ?_⟩
  · rw [List.eq_replicate_iff]
    exact ⟨by rw [noteOnSeq_length, hlen], hcodes⟩
  · intro k a hka
    have h := hsteps k a hka
    rw [Nat.zero_add] at h
    exact h
  · intro k k1 hk hk1 h
    simp only [MAX_VOICES] at hc hk hk1 h; omega
  · intro j
    obtain ⟨_, hst⟩ := hfin
    rw [hst j, if_pos]
    rw [hlen, Nat.zero_add]
    exact Nat.mod_lt _ (by decide)

/-- Witness for C4: the nine calls of `nineNotes` on `emptyTable`. -/
theorem noteOn_round_robin_witness :
    emptyTable.voiceItr < MAX_VOICES ∧
      (∀ j, (emptyTable.synth.voices j).state = NOTE_OFF) ∧
      nineNotes.length = MAX_VOICES ∧
      (noteOnSeq emptyTable nineNotes).1 = List.replicate MAX_VOICES 0 ∧
      (∀ j, ((noteOnSeq emptyTable nineNotes).2.synth.voices j).state = NOTE_ON) := by
  have hc : emptyTable.voiceItr < MAX_VOICES := by decide
  have hempty : ∀ j, (emptyTable.synth.voices j).state = NOTE_OFF := fun _ => rfl
  have hlen : nineNotes.length = MAX_VOICES := by decide
  have h := noteOn_round_robin emptyTable nineNotes hc hempty hlen
  exact ⟨hc, hempty, hlen, h.1, h.2.2.2⟩

/-- C6: with at least one Off slot, any note and an instrument in `0..15`,
`noteOn` returns 0, the `noteOff` for the same pair that follows
returns 0 and turns Off a slot holding `(note, instr)`, and the number of On
slots is back to what it was before the `noteOn`. -/
theorem noteOn_noteOff_round_trip (s : State) (note instr vol : Nat)
    (hoff : ∃ j, (s.synth.voices j).state = NOTE_OFF)
    (hinstr : instr ≤ 15) :
    (noteOn s note instr vol).1 = 0 ∧
      (noteOff (noteOn s note instr vol).2 note instr).1 = 0 ∧
      (∃ v : Fin MAX_VOICES,
        (noteOn s note instr vol).2.synth.voices v = ⟨note, instr, NOTE_ON⟩ ∧
        (noteOff (noteOn s note instr vol).2 note instr).2.synth.voices v
          = ⟨note, instr, NOTE_OFF⟩ ∧
        ∀ j, j ≠ v →
          (noteOff (noteOn s note instr vol).2 note instr).2.synth.voices j
            = (noteOn s note instr vol).2.synth.voices j) ∧
      onCount (noteOff (noteOn s note instr vol).2 note instr).2 = onCount s := by
  obtain ⟨k, hk, hko, hmin⟩ := exists_least_off s hoff
  have hrun := noteOn_of_least_off s note instr vol k hk hko hmin
  have hzero : (noteOn s note instr vol).1 = 0 := by rw [hrun]
  have hcount : stateCount (claimed s (slotAt s k) note instr vol) NOTE_ON
      = stateCount s NOTE_ON + 1 := by
    have h := (noteOn_success_stateCount s note instr vol hzero).2
    rw [hrun] at h
    exact h
  have hmask : instr &&& 0xF = instr := by
    have h := Nat.and_pow_two_sub_one_eq_mod instr 4
    have h2 : instr % 2 ^ 4 = instr := Nat.mod_eq_of_lt (by omega)
    rw [h2] at h
    exact h
  rw [hrun]
  have hslot : (claimed s (slotAt s k) note instr vol).synth.voices (slotAt s k)
      = ⟨note, instr, NOTE_ON⟩ := by
    rw [claimed_voices, Function.update_same, hmask]
  have hex : ∃ v, Matches (claimed s (slotAt s k) note instr vol) note instr v :=
    ⟨slotAt s k, by unfold Matches; rw [hslot]; exact ⟨rfl, rfl, rfl⟩⟩
  obtain ⟨w, hw, hwmin⟩ := exists_least_match _ note instr hex
  have hrun2 := noteOff_of_least_match _ note instr w hw hwmin
  rw [hrun2]
  have hwslot : (claimed s (slotAt s k) note instr vol).synth.voices w
      = ⟨note, instr, NOTE_ON⟩ := by
    obtain ⟨h1, h2, h3⟩ := hw
    cases hx : (claimed s (slotAt s k) note instr vol).synth.voices w with
    | mk n i st =>
      rw [hx] at h1 h2 h3
      simp only at h1 h2 h3
      rw [h1, h2, h3]
  refine ⟨rfl, rfl, ⟨w, hwslot, ?_, ?_⟩, ?_⟩
  · rw [setNote_voices, Function.update_same, hwslot]
    rfl
  · intro j hj
    rw [setNote_voices]; exact Function.update_noteq hj _ _
  · have hupd := stateCount_update (claimed s (slotAt s k) note instr vol)
      (setNote (claimed s (slotAt s k) note instr vol) w note NOTE_OFF) w
      _ NOTE_ON (setNote_voices _ w note NOTE_OFF)
    rw [hwslot] at hupd
    have hupd1 : stateCount (setNote (claimed s (slotAt s k) note instr vol) w note NOTE_OFF)
        NOTE_ON + 1 = stateCount (claimed s (slotAt s k) note instr vol) NOTE_ON + 0 := hupd
    show stateCount (setNote (claimed s (slotAt s k) note instr vol) w note NOTE_OFF) NOTE_ON
      = stateCount s NOTE_ON
    omega

/-- Witness for C6 on `mixedTable` with note 64 and instrument 2. -/
theorem noteOn_noteOff_round_trip_witness :
    (∃ j, (mixedTable.synth.voices j).state = NOTE_OFF) ∧ 2 ≤ 15 ∧
      (noteOff (noteOn mixedTable 64 2 100).2 64 2).1 = 0 ∧
      onCount (noteOff (noteOn mixedTable 64 2 100).2 64 2).2 = onCount mixedTable := by
  have hoff : ∃ j, (mixedTable.synth.voices j).state = NOTE_OFF := ⟨⟨1, by decide⟩, by decide⟩
  have h := noteOn_noteOff_round_trip mixedTable 64 2 100 hoff (by decide)
  exact ⟨hoff, by decide, h.2.1, h.2.2.2⟩

theorem finRange_drop (n : Nat) (h : n < MAX_VOICES) :
    (List.finRange MAX_VOICES).drop n = ⟨n, h⟩ :: (List.finRange MAX_VOICES).drop (n + 1) := by
  simp only [MAX_VOICES] at h
  interval_cases n <;> rfl

theorem killAllLoop_succ (s : State) (rem : Nat) :
    killAllLoop s (rem + 1) =
      killAllLoop
        (killStep s ⟨MAX_VOICES - (rem + 1), Nat.sub_lt (by decide) (Nat.succ_pos rem)⟩) rem := by
  have hv0 : MAX_VOICES - (rem + 1) < MAX_VOICES := Nat.sub_lt (by decide) (Nat.succ_pos rem)
  have ha : (0x10 + (MAX_VOICES - (rem + 1))) % 256 = 0x10 + (MAX_VOICES - (rem + 1)) := by
    simp only [MAX_VOICES]; omega
  have hb : (0x20 + (MAX_VOICES - (rem + 1))) % 256 = 0x20 + (MAX_VOICES - (rem + 1)) := by
    simp only [MAX_VOICES]; omega
  rw [killAllLoop]
  congr 1
  simp only [killStep, killWrites, setNote, writeRegister, dataLo, dataHi, ha, hb]
  simp

theorem killStep_note (s : State) (v u : Fin MAX_VOICES) :
    ((killStep s v).synth.voices u).note = (s.synth.voices u).note := by
  by_cases hu : u = v
  · subst hu; simp [killStep]
  · simp [killStep, Function.update_noteq hu]

theorem killWrites_killStep (s : State) (v : Fin MAX_VOICES) :
    killWrites (killStep s v) = killWrites s := by
  funext u
  simp only [killWrites, killStep_note]

theorem killAllLoop_spec (rem : Nat) :
    ∀ s : State, rem ≤ MAX_VOICES →
      (killAllLoop s rem).voiceItr = s.voiceItr ∧
        (∀ j : Fin MAX_VOICES, (killAllLoop s rem).synth.voices j =
          if MAX_VOICES - rem ≤ j.val then
            ⟨(s.synth.voices j).note, (s.synth.voices j).instrument, NOTE_OFF⟩
          else s.synth.voices j) ∧
        (killAllLoop s rem).writes =
          s.writes ++
            ((List.finRange MAX_VOICES).drop (MAX_VOICES - rem)).flatMap (killWrites s) := by
  induction rem with
  | zero =>
    intro s _
    refine ⟨rfl, fun j => ?_, ?_⟩
    · have hj := j.isLt
      rw [if_neg (by omega)]
      rfl
    · have hnil : (List.finRange MAX_VOICES).drop (MAX_VOICES - 0) = [] := rfl
      rw [hnil]
      simp [killAllLoop]
  | succ r ih =>
    intro s hr
    have hv0 : MAX_VOICES - (r + 1) < MAX_VOICES := Nat.sub_lt (by decide) (Nat.succ_pos r)
    rw [killAllLoop_succ]
    obtain ⟨hcur, hvoices, hwrites⟩ := ih (killStep s ⟨MAX_VOICES - (r + 1), hv0⟩)
      (by omega : r ≤ MAX_VOICES)
    refine ⟨?_, fun j => ?_, ?_⟩
    · rw [hcur]; rfl
    · rw [hvoices j]
      by_cases hj : j = ⟨MAX_VOICES - (r + 1), hv0⟩
      · subst hj
        rw [if_neg (by simp only [MAX_VOICES] at hr ⊢; omega), if_pos (le_refl _)]
        simp [killStep]
      · have hne : j.val ≠ MAX_VOICES - (r + 1) := fun h => hj (Fin.ext h)
        have hiff : MAX_VOICES - r ≤ j.val ↔ MAX_VOICES - (r + 1) ≤ j.val := by
          simp only [MAX_VOICES] at hr hne ⊢; omega
        simp only [hiff, killStep, Function.update_noteq hj]
    · rw [hwrites, finRange_drop (MAX_VOICES - (r + 1)) hv0]
      have hsub : MAX_VOICES - (r + 1) + 1 = MAX_VOICES - r := by
        simp only [MAX_VOICES] at hr ⊢; omega
      rw [hsub, List.flatMap_cons, killWrites_killStep, ← List.append_assoc]
      rfl

theorem killAll_spec (s : State) :
    (killAll s).voiceItr = s.voiceItr ∧
      (∀ j : Fin MAX_VOICES, (killAll s).synth.voices j =
        ⟨(s.synth.voices j).note, (s.synth.voices j).instrument, NOTE_OFF⟩) ∧
      (killAll s).writes = s.writes ++ (List.finRange MAX_VOICES).flatMap (killWrites s) := by
  obtain ⟨hcur, hvoices, hwrites⟩ := killAllLoop_spec MAX_VOICES s (le_refl _)
  refine ⟨hcur, fun j => ?_, hwrites⟩
  have h := hvoices j
  rw [if_pos (by omega)] at h
  exact h

theorem dataHi_off_gate_clear (note : Nat) : dataHi note NOTE_OFF &&& 0x10 = 0 := by
  unfold dataHi
  have hx : (get_fnum note >>> 8) &&& 0x01 ≤ 0x01 := Nat.and_le_right
  have hy : get_octave note &&& 0x07 ≤ 0x07 := Nat.and_le_right
  generalize (get_fnum note >>> 8) &&& 0x01 = x at hx
  generalize get_octave note &&& 0x07 = y at hy
  interval_cases x <;> interval_cases y <;> decide

/-- C7: after `killAll` every slot is Off, and a `noteOff` that follows returns
-1 for every note and instrument. -/
theorem killAll_then_noteOff (s : State) (note instr : Nat) :
    (∀ j, ((killAll s).synth.voices j).state = NOTE_OFF) ∧
      (noteOff (killAll s) note instr).1 = -1 := by
  have hoff : ∀ j, ((killAll s).synth.voices j).state = NOTE_OFF := by
    intro j
    rw [(killAll_spec s).2.1 j]
  refine ⟨hoff, ?_⟩
  rw [noteOff_of_no_match (killAll s) note instr]
  intro v hv
  have h1 := hv.1
  rw [hoff v] at h1
  exact absurd h1 (by decide)

/-- C8: whatever the slot states, `killAll` emits exactly 18 register writes: for
each voice `v = 0..8` in increasing order a write to `0x10 + v` followed by a
write to `0x20 + v` whose data byte has bit 4 (mask `0x10`) clear; the note and
instrument of every slot and the cursor are unchanged. -/
theorem killAll_register_effect (s : State) :
    (killAll s).writes = s.writes ++ (List.finRange MAX_VOICES).flatMap (fun v =>
        [(0x10 + v.val, dataLo (s.synth.voices v).note),
         (0x20 + v.val, dataHi (s.synth.voices v).note NOTE_OFF)]) ∧
      ((List.finRange MAX_VOICES).flatMap (fun v =>
        [(0x10 + v.val, dataLo (s.synth.voices v).note),
         (0x20 + v.val, dataHi (s.synth.voices v).note NOTE_OFF)])).length = 18 ∧
      (∀ v : Fin MAX_VOICES, dataHi (s.synth.voices v).note NOTE_OFF &&& 0x10 = 0) ∧
      (∀ v : Fin MAX_VOICES,
        ((killAll s).synth.voices v).note = (s.synth.voices v).note ∧
          ((killAll s).synth.voices v).instrument = (s.synth.voices v).instrument) ∧
      (killAll s).voiceItr = s.voiceItr := by
  obtain ⟨hcur, hvoices, hwrites⟩ := killAll_spec s
  refine ⟨hwrites, rfl, fun v => dataHi_off_gate_clear _, fun v => ?_, hcur⟩
  rw [hvoices v]
  exact ⟨rfl, rfl⟩

/-- C9: `get_octave note` is `min (note / 12) 7`, so it lies in `[0, 7]`; every
note above 95 maps to 7, and `get_octave 95 = 7`, `get_octave 96 = 7`,
`get_octave 11 = 0`. -/
theorem get_octave_clamped (note : Nat) :
    get_octave note = min (note / 12) 7 ∧ get_octave note ≤ 7 ∧
      (95 < note → get_octave note = 7) ∧
      get_octave 95 = 7 ∧ get_octave 96 = 7 ∧ get_octave 11 = 0 := by
  have hmin : get_octave note = min (note / 12) 7 := by
    unfold get_octave
    by_cases h : note > 95
    · rw [if_pos h]; omega
    · rw [if_neg h]
      have hm := Nat.and_pow_two_sub_one_eq_mod (note / 12) 3
      have hm1 : (note / 12) &&& 0x07 = (note / 12) % 8 := hm
      rw [hm1]; omega
  refine ⟨hmin, ?_, ?_, by decide, by decide, by decide⟩
  · rw [hmin]; omega
  · intro h; rw [hmin]; omega

/-- Witness for C9 at note 200, above 95. -/
theorem get_octave_clamped_witness : 95 < 200 ∧ get_octave 200 = 7 :=
  ⟨by decide, (get_octave_clamped 200).2.2.1 (by decide)⟩

/-- C10: for every note the index `note % 12` is inside the 12-entry table and
`get_fnum note` is the entry there; when `note + 12 <= 255`, so that the
argument `note + 12` is not changed by its conversion to a byte,
`get_fnum (note + 12) = get_fnum note`. -/
theorem get_fnum_lookup_periodic (note : Nat) :
    fnum_lookup.length = 12 ∧ note % 12 < fnum_lookup.length ∧
      fnum_lookup[note % 12]? = some (get_fnum note) ∧
      (note + 12 ≤ 255 →
        get_fnum (note + 12) = get_fnum note ∧
          get_fnum ((note + 12) % 256) = get_fnum note) := by
  have hlt : note % 12 < fnum_lookup.length := Nat.mod_lt note (by decide)
  have hper : get_fnum (note + 12) = get_fnum note := by
    simp only [get_fnum, Nat.add_mod_right]
  refine ⟨rfl, hlt, ?_, fun h => ⟨hper, ?_⟩⟩
  · rw [List.getElem?_eq_getElem hlt]
    rfl
  · rw [Nat.mod_eq_of_lt (by omega)]
    exact hper

/-- Witness for C10 at note 60. -/
theorem get_fnum_lookup_periodic_witness :
    60 + 12 ≤ 255 ∧ get_fnum (60 + 12) = get_fnum 60 :=
  ⟨by decide, ((get_fnum_lookup_periodic 60).2.2.2 (by decide)).1⟩

end YM2413

namespace Synth

open YM2413

/-! ## Masks of a received byte -/

theorem and_0x80 (b : Nat) (h : b < 256) : b &&& 0x80 = b / 128 * 128 := by
  interval_cases b <;> rfl

theorem and_0xF0 (b : Nat) (h : b < 256) : b &&& 0xF0 = b / 16 * 16 := by
  interval_cases b <;> rfl

theorem and_0x0F (b : Nat) : b &&& 0x0F = b % 16 :=
  Nat.and_pow_two_sub_one_eq_mod b 4

theorem or_0x90 (c : Nat) (h : c < 16) : 0x90 ||| c = 0x90 + c := by
  interval_cases c <;> rfl

theorem or_0x80 (c : Nat) (h : c < 16) : 0x80 ||| c = 0x80 + c := by
  interval_cases c <;> rfl

/-! ## The three decoder functions, by class of byte -/

theorem waiting_data (g : Machine) (b : Nat) (h : b < 0x80) :
    waiting g b = (state_t.WAITING, g) := by
  have h80 : b &&& 0x80 = 0 := by rw [and_0x80 b (by omega)]; omega
  simp only [waiting, h80, ne_eq, not_true_eq_false, if_false]

theorem waiting_system (g : Machine) (b : Nat) (hlo : 0xF0 ≤ b) (hhi : b ≤ 0xFF) :
    waiting g b = (g.state, g) := by
  have h80 : b &&& 0x80 = 0x80 := by rw [and_0x80 b (by omega)]; omega
  have hF0 : b &&& 0xF0 = 0xF0 := by rw [and_0xF0 b (by omega)]; omega
  simp [waiting, h80, hF0]

theorem waiting_note_on (g : Machine) (b : Nat) (hlo : 0x90 ≤ b) (hhi : b ≤ 0x9F) :
    waiting g b = (state_t.ONE_BYTE,
      { g with message := { g.message with instrument := b % 16, opcode := NOTE_ON_OPCODE } }) := by
  have h80 : b &&& 0x80 = 0x80 := by rw [and_0x80 b (by omega)]; omega
  have hF0 : b &&& 0xF0 = 0x90 := by rw [and_0xF0 b (by omega)]; omega
  simp [waiting, h80, hF0, and_0x0F]

theorem waiting_note_off (g : Machine) (b : Nat) (hlo : 0x80 ≤ b) (hhi : b ≤ 0x8F) :
    waiting g b = (state_t.ONE_BYTE,
      { g with message := { g.message with instrument := b % 16, opcode := NOTE_OFF_OPCODE } }) := by
  have h80 : b &&& 0x80 = 0x80 := by rw [and_0x80 b (by omega)]; omega
  have hF0 : b &&& 0xF0 = 0x80 := by rw [and_0xF0 b (by omega)]; omega
  simp [waiting, h80, hF0, and_0x0F]

theorem waiting_other (g : Machine) (b : Nat) (hlo : 0xA0 ≤ b) (hhi : b ≤ 0xEF) :
    waiting g b = (state_t.WAITING,
      { g with message := { g.message with instrument := b % 16 } }) := by
  have h80 : b &&& 0x80 = 0x80 := by rw [and_0x80 b (by omega)]; omega
  have hF0 : b &&& 0xF0 = b / 16 * 16 := and_0xF0 b (by omega)
  have h1 : ¬ b &&& 0xF0 = 0xF0 := by rw [hF0]; omega
  have h2 : ¬ b &&& 0xF0 = 0x90 := by rw [hF0]; omega
  have h3 : ¬ b &&& 0xF0 = 0x80 := by rw [hF0]; omega
  simp [waiting, h80, h1, h2, h3, and_0x0F]

theorem one_byte_status (g : Machine) (b : Nat) (hlo : 0x80 ≤ b) (hhi : b ≤ 0xFF) :
    one_byte g b = waiting g b := by
  have h80 : b &&& 0x80 = 0x80 := by rw [and_0x80 b (by omega)]; omega
  simp [one_byte, h80]

theorem one_byte_data (g : Machine) (b : Nat) (h : b < 0x80) :
    one_byte g b = (state_t.TWO_BYTES, { g with message := { g.message with note := b } }) := by
  have h80 : b &&& 0x80 = 0 := by rw [and_0x80 b (by omega)]; omega
  simp [one_byte, h80]

theorem two_bytes_status (g : Machine) (b : Nat) (hlo : 0x80 ≤ b) (hhi : b ≤ 0xFF) :
    two_bytes g b = waiting g b := by
  have h80 : b &&& 0x80 = 0x80 := by rw [and_0x80 b (by omega)]; omega
  simp [two_bytes, h80]

theorem two_bytes_on_zero (g : Machine) (hop : g.message.opcode = NOTE_ON_OPCODE) :
    two_bytes g 0 = (state_t.ONE_BYTE,
      callNoteOff { g with message := { g.message with vol := 0 } }
        g.message.note g.message.instrument) := by
  simp [two_bytes, hop]

theorem two_bytes_on_vel (g : Machine) (b : Nat) (hpos : 0 < b) (h : b < 0x80)
    (hop : g.message.opcode = NOTE_ON_OPCODE) :
    two_bytes g b = (state_t.ONE_BYTE,
      callNoteOn { g with message := { g.message with vol := b } }
        g.message.note g.message.instrument (255 - b)) := by
  have h80 : b &&& 0x80 = 0 := by rw [and_0x80 b (by omega)]; omega
  have hne : ¬ b = 0 := by omega
  have hcomp : (0xFFFF - b) % 256 = 255 - b := by omega
  simp [two_bytes, h80, hop, hne, hcomp]

theorem two_bytes_off (g : Machine) (b : Nat) (h : b < 0x80)
    (hop : g.message.opcode ≠ NOTE_ON_OPCODE) :
    two_bytes g b = (state_t.ONE_BYTE,
      callNoteOff { g with message := { g.message with vol := b } }
        g.message.note g.message.instrument) := by
  have h80 : b &&& 0x80 = 0 := by rw [and_0x80 b (by omega)]; omega
  simp [two_bytes, h80, hop]

end Synth

namespace Synth

open YM2413

/-! ## One `dispatch` step -/

theorem dispatch_of_waiting (g : Machine) (b : Nat) (hg : g.state = state_t.WAITING) :
    dispatch g b = { (waiting g b).2 with state := (waiting g b).1 } := by
  simp only [dispatch, hg]

theorem dispatch_of_one_byte (g : Machine) (b : Nat) (hg : g.state = state_t.ONE_BYTE) :
    dispatch g b = { (one_byte g b).2 with state := (one_byte g b).1 } := by
  simp only [dispatch, hg]

theorem dispatch_of_two_bytes (g : Machine) (b : Nat) (hg : g.state = state_t.TWO_BYTES) :
    dispatch g b = { (two_bytes g b).2 with state := (two_bytes g b).1 } := by
  simp only [dispatch, hg]

/-- A status byte reaches `waiting` from each of the three decoder states. -/
theorem dispatch_status (g : Machine) (b : Nat) (hst : g.state ≠ state_t.KEYBOARD_MODE)
    (hlo : 0x80 ≤ b) (hhi : b ≤ 0xFF) :
    dispatch g b = { (waiting g b).2 with state := (waiting g b).1 } := by
  cases hs : g.state with
  | WAITING => exact dispatch_of_waiting g b hs
  | ONE_BYTE => rw [dispatch_of_one_byte g b hs, one_byte_status g b hlo hhi]
  | TWO_BYTES => rw [dispatch_of_two_bytes g b hs, two_bytes_status g b hlo hhi]
  | KEYBOARD_MODE => exact absurd hs hst

/-- A note-on or note-off status byte `op + c` starts a message in every decoder state. -/
theorem dispatch_header (g : Machine) (op c : Nat) (hst : g.state ≠ state_t.KEYBOARD_MODE)
    (hop : op = NOTE_ON_OPCODE ∨ op = NOTE_OFF_OPCODE) (hc : c < 16) :
    (dispatch g (op + c)).state = state_t.ONE_BYTE ∧
      (dispatch g (op + c)).message.opcode = op ∧
      (dispatch g (op + c)).message.instrument = c ∧
      (dispatch g (op + c)).calls = g.calls ∧
      (dispatch g (op + c)).chip = g.chip ∧
      (dispatch g (op + c)).kbdInstrument = g.kbdInstrument := by
  have hmod : (op + c) % 16 = c := by
    rcases hop with h | h <;> (rw [h]; simp only [NOTE_ON_OPCODE, NOTE_OFF_OPCODE]; omega)
  rcases hop with h | h
  · subst h
    rw [dispatch_status g _ hst (by simp only [NOTE_ON_OPCODE]; omega)
      (by simp only [NOTE_ON_OPCODE]; omega),
      waiting_note_on g _ (by simp only [NOTE_ON_OPCODE]; omega)
        (by simp only [NOTE_ON_OPCODE]; omega), hmod]
    exact ⟨rfl, rfl, rfl, rfl, rfl, rfl⟩
  · subst h
    rw [dispatch_status g _ hst (by simp only [NOTE_OFF_OPCODE]; omega)
      (by simp only [NOTE_OFF_OPCODE]; omega),
      waiting_note_off g _ (by simp only [NOTE_OFF_OPCODE]; omega)
        (by simp only [NOTE_OFF_OPCODE]; omega), hmod]
    exact ⟨rfl, rfl, rfl, rfl, rfl, rfl⟩

/-- The allocator call `two_bytes` makes for velocity byte `v` under opcode `op`. -/
theorem feed_body (g : Machine) (n v : Nat) (hg : g.state = state_t.ONE_BYTE)
    (hn : n < 0x80) (hv : v < 0x80) :
    (feed g [n, v]).state = state_t.ONE_BYTE ∧
      (feed g [n, v]).message.opcode = g.message.opcode ∧
      (feed g [n, v]).message.instrument = g.message.instrument ∧
      (feed g [n, v]).calls = g.calls ++
        [if g.message.opcode = NOTE_ON_OPCODE ∧ v ≠ 0 then
            Call.noteOn n g.message.instrument (255 - v)
          else Call.noteOff n g.message.instrument] := by
  obtain ⟨g2, h1, hs2, hop2, hin2, hno2, hc2⟩ : ∃ g2 : Machine, dispatch g n = g2 ∧
      g2.state = state_t.TWO_BYTES ∧ g2.message.opcode = g.message.opcode ∧
      g2.message.instrument = g.message.instrument ∧ g2.message.note = n ∧
      g2.calls = g.calls := by
    refine ⟨{ g with state := state_t.TWO_BYTES, message := { g.message with note := n } },
      ?_, rfl, rfl, rfl, rfl, rfl⟩
    rw [dispatch_of_one_byte g n hg, one_byte_data g n hn]
  have hfeed : feed g [n, v] = dispatch (dispatch g n) v := rfl
  rw [hfeed, h1, dispatch_of_two_bytes g2 v hs2]
  by_cases hop : g.message.opcode = NOTE_ON_OPCODE
  · by_cases hv0 : v = 0
    · subst hv0
      rw [two_bytes_on_zero g2 (hop2.trans hop)]
      simp [callNoteOff, hop, hop2, hin2, hno2, hc2]
    · rw [two_bytes_on_vel g2 v (by omega) hv (hop2.trans hop)]
      simp [callNoteOn, hop, hv0, hop2, hin2, hno2, hc2]
  · rw [two_bytes_off g2 v hv (by rw [hop2]; exact hop)]
    simp [callNoteOff, hop, hop2, hin2, hno2, hc2]

end Synth

namespace Synth

open YM2413

/-- C11 (as stated, refuted): in `ONE_BYTE` the status byte `0xF8`, whose high
nibble is neither 8 nor 9, does not lead to `WAITING`, although `WAITING` itself
stays in `WAITING` on that byte. -/
theorem status_interruption_counterexample :
    midMessage.state = state_t.ONE_BYTE ∧ 0x80 ≤ 0xF8 ∧ 0xF8 ≤ 0xFF ∧
      0xF8 / 16 ≠ 9 ∧ 0xF8 / 16 ≠ 8 ∧
      (dispatch midMessage 0xF8).state ≠ state_t.WAITING ∧
      (dispatch { midMessage with state := state_t.WAITING } 0xF8).state = state_t.WAITING := by
  decide

/-- C11 (amended): a status byte received in `ONE_BYTE` or `TWO_BYTES` emits no
event; for `0x80 <= b <= 0xEF` the next state and message are those `WAITING`
would produce on `b`: `ONE_BYTE` with the opcode and the low nibble captured
when the high nibble is 9 or 8, `WAITING` otherwise; for `0xF0 <= b <= 0xFF`
the state and the message are left as they were. -/
theorem status_interruption (g : Machine) (b : Nat)
    (hst : g.state = state_t.ONE_BYTE ∨ g.state = state_t.TWO_BYTES)
    (hlo : 0x80 ≤ b) (hhi : b ≤ 0xFF) :
    (dispatch g b).calls = g.calls ∧ (dispatch g b).chip = g.chip ∧
      (b ≤ 0xEF →
        (dispatch g b).state = (dispatch { g with state := state_t.WAITING } b).state ∧
          (dispatch g b).message
            = (dispatch { g with state := state_t.WAITING } b).message) ∧
      (b / 16 = 9 → (dispatch g b).state = state_t.ONE_BYTE ∧
        (dispatch g b).message.opcode = NOTE_ON_OPCODE ∧
        (dispatch g b).message.instrument = b % 16) ∧
      (b / 16 = 8 → (dispatch g b).state = state_t.ONE_BYTE ∧
        (dispatch g b).message.opcode = NOTE_OFF_OPCODE ∧
        (dispatch g b).message.instrument = b % 16) ∧
      (0xA0 ≤ b → b ≤ 0xEF → (dispatch g b).state = state_t.WAITING) ∧
      (0xF0 ≤ b → (dispatch g b).state = g.state ∧ (dispatch g b).message = g.message) := by
  have hkb : g.state ≠ state_t.KEYBOARD_MODE := by
    rcases hst with h | h <;> (rw [h]; decide)
  have hd := dispatch_status g b hkb hlo hhi
  have hdw := dispatch_of_waiting { g with state := state_t.WAITING } b rfl
  have hcases : b ≤ 0x8F ∨ (0x90 ≤ b ∧ b ≤ 0x9F) ∨ (0xA0 ≤ b ∧ b ≤ 0xEF) ∨ 0xF0 ≤ b := by omega
  rcases hcases with h | h | h | h
  · rw [hd, hdw, waiting_note_off g b hlo h, waiting_note_off _ b hlo h]
    refine ⟨rfl, rfl, fun _ => ⟨rfl, rfl⟩, fun h9 => ?_, fun _ => ⟨rfl, rfl, rfl⟩,
      fun ha => ?_, fun hf => ?_⟩ <;> omega
  · rw [hd, hdw, waiting_note_on g b h.1 h.2, waiting_note_on _ b h.1 h.2]
    refine ⟨rfl, rfl, fun _ => ⟨rfl, rfl⟩, fun _ => ⟨rfl, rfl, rfl⟩, fun h8 => ?_,
      fun ha => ?_, fun hf => ?_⟩ <;> omega
  · rw [hd, hdw, waiting_other g b h.1 h.2, waiting_other _ b h.1 h.2]
    refine ⟨rfl, rfl, fun _ => ⟨rfl, rfl⟩, fun h9 => ?_, fun h8 => ?_,
      fun _ _ => rfl, fun hf => ?_⟩ <;> omega
  · rw [hd, waiting_system g b h hhi]
    refine ⟨rfl, rfl, fun hle => ?_, fun h9 => ?_, fun h8 => ?_,
      fun _ hle => ?_, fun _ => ⟨rfl, rfl⟩⟩ <;> omega

/-- Witness for C11 (amended): the status byte `0x93` received in `ONE_BYTE`,
and the byte `0xF8` received there. -/
theorem status_interruption_witness :
    (midMessage.state = state_t.ONE_BYTE ∨ midMessage.state = state_t.TWO_BYTES) ∧
      (dispatch midMessage 0x93).state = state_t.ONE_BYTE ∧
      (dispatch midMessage 0x93).message.instrument = 3 ∧
      (dispatch midMessage 0xF8).state = state_t.ONE_BYTE := by
  have hst : midMessage.state = state_t.ONE_BYTE ∨ midMessage.state = state_t.TWO_BYTES :=
    Or.inl rfl
  have h := status_interruption midMessage 0x93 hst (by decide) (by decide)
  have h9 := h.2.2.2.1 (by decide)
  have hF := (status_interruption midMessage 0xF8 hst (by decide) (by decide)).2.2.2.2.2.2
    (by decide)
  exact ⟨hst, h9.1, h9.2.2, hF.1⟩

/-- C12: fed to a decoder in `WAITING`, the bytes `[0x90|c, n, v]` make exactly
one allocator call, `noteOff(n, c)` when `v = 0` and a `noteOn` for note `n`
and instrument `c` (its volume argument is the byte `~v`) when `v > 0`; the
bytes `[0x80|c, n, v]` make exactly the call `noteOff(n, c)`; the decoder ends
in `ONE_BYTE`. -/
theorem decode_one_message (g : Machine) (c n v : Nat)
    (hg : g.state = state_t.WAITING) (hc : c ≤ 15) (hn : n ≤ 127) (hv : v ≤ 127) :
    (feed g [0x90 ||| c, n, v]).calls
        = g.calls ++ [if v = 0 then Call.noteOff n c else Call.noteOn n c (255 - v)] ∧
      (feed g [0x90 ||| c, n, v]).state = state_t.ONE_BYTE ∧
      (feed g [0x80 ||| c, n, v]).calls = g.calls ++ [Call.noteOff n c] ∧
      (feed g [0x80 ||| c, n, v]).state = state_t.ONE_BYTE := by
  have hkb : g.state ≠ state_t.KEYBOARD_MODE := by rw [hg]; decide
  rw [or_0x90 c (by omega), or_0x80 c (by omega)]
  obtain ⟨hs1, ho1, hi1, hc1, _, _⟩ := dispatch_header g 0x90 c hkb (Or.inl rfl) (by omega)
  obtain ⟨hs2, ho2, hi2, hc2, _, _⟩ := dispatch_header g 0x80 c hkb (Or.inr rfl) (by omega)
  have hf1 : feed g [0x90 + c, n, v] = feed (dispatch g (0x90 + c)) [n, v] := rfl
  have hf2 : feed g [0x80 + c, n, v] = feed (dispatch g (0x80 + c)) [n, v] := rfl
  obtain ⟨hbs1, _, _, hbc1⟩ := feed_body (dispatch g (0x90 + c)) n v hs1 (by omega) (by omega)
  obtain ⟨hbs2, _, _, hbc2⟩ := feed_body (dispatch g (0x80 + c)) n v hs2 (by omega) (by omega)
  rw [hf1, hf2, hbc1, hbc2, ho1, ho2, hi1, hi2, hc1, hc2]
  refine ⟨?_, hbs1, ?_, hbs2⟩
  · by_cases hv0 : v = 0
    · simp [hv0]
    · simp [hv0]
  · simp

/-- Witness for C12: `[0x90, 0x40, 0x00]` yields exactly one `noteOff(0x40, 0)`. -/
theorem decode_one_message_witness :
    idleMachine.state = state_t.WAITING ∧
      (feed idleMachine [0x90, 0x40, 0x00]).calls = [Call.noteOff 0x40 0] ∧
      (feed idleMachine [0x90, 0x40, 0x00]).state = state_t.ONE_BYTE := by
  have h := decode_one_message idleMachine 0 0x40 0 rfl (by decide) (by decide) (by decide)
  exact ⟨rfl, h.1, h.2.1⟩

end Synth

namespace Synth

open YM2413

/-- C13: fed to a decoder in `WAITING`, the bytes `[0x90|c1, n1, 0x90|c2, n2, v]`
with `v` in `1..127` make exactly one allocator call, the `noteOn` for note
`n2` and instrument `c2` whose volume argument is the byte `~v = 255 - v`; the
partial message for `n1` makes no call and there is no `noteOff`. -/
theorem decode_resync (g : Machine) (c1 c2 n1 n2 v : Nat)
    (hg : g.state = state_t.WAITING) (hc1 : c1 ≤ 15) (hc2 : c2 ≤ 15)
    (hn1 : n1 ≤ 127) (hn2 : n2 ≤ 127) (hv1 : 1 ≤ v) (hv : v ≤ 127) :
    (feed g [0x90 ||| c1, n1, 0x90 ||| c2, n2, v]).calls
        = g.calls ++ [Call.noteOn n2 c2 (255 - v)] ∧
      255 - (255 - v) = v ∧
      (feed g [0x90 ||| c1, n1]).calls = g.calls ∧
      (feed g [0x90 ||| c1, n1, 0x90 ||| c2]).calls = g.calls := by
  have hkb : g.state ≠ state_t.KEYBOARD_MODE := by rw [hg]; decide
  rw [or_0x90 c1 (by omega), or_0x90 c2 (by omega)]
  obtain ⟨g1, hg1, hs1, hcl1⟩ : ∃ g1 : Machine, dispatch g (0x90 + c1) = g1 ∧
      g1.state = state_t.ONE_BYTE ∧ g1.calls = g.calls := by
    obtain ⟨hs, _, _, hcl, _, _⟩ := dispatch_header g 0x90 c1 hkb (Or.inl rfl) (by omega)
    exact ⟨_, rfl, hs, hcl⟩
  obtain ⟨g2, h2, hs2, hcl2⟩ : ∃ g2 : Machine, dispatch g1 n1 = g2 ∧
      g2.state = state_t.TWO_BYTES ∧ g2.calls = g.calls := by
    refine ⟨{ g1 with state := state_t.TWO_BYTES, message := { g1.message with note := n1 } },
      ?_, rfl, hcl1⟩
    rw [dispatch_of_one_byte g1 n1 hs1, one_byte_data g1 n1 (by omega)]
  have hkb2 : g2.state ≠ state_t.KEYBOARD_MODE := by rw [hs2]; decide
  obtain ⟨hs3, ho3, hi3, hcl3, _, _⟩ := dispatch_header g2 0x90 c2 hkb2 (Or.inl rfl) (by omega)
  obtain ⟨_, _, _, hbc⟩ := feed_body (dispatch g2 (0x90 + c2)) n2 v hs3 (by omega) (by omega)
  have hfa : feed g [0x90 + c1, n1] = g2 := by
    rw [← h2, ← hg1]; rfl
  have hfb : feed g [0x90 + c1, n1, 0x90 + c2] = dispatch g2 (0x90 + c2) := by
    rw [← h2, ← hg1]; rfl
  have hfc : feed g [0x90 + c1, n1, 0x90 + c2, n2, v]
      = feed (dispatch g2 (0x90 + c2)) [n2, v] := by
    rw [← h2, ← hg1]; rfl
  refine ⟨?_, by omega, ?_, ?_⟩
  · rw [hfc, hbc, ho3, hi3, hcl3, hcl2]
    have hv0 : v ≠ 0 := by omega
    simp [hv0]
  · rw [hfa, hcl2]
  · rw [hfb, hcl3, hcl2]

/-- Witness for C13: `[0x90, 0x40, 0x90, 0x41, 0x7F]` yields exactly one
`noteOn` for note `0x41`, instrument 0, with volume argument `~0x7F = 0x80`. -/
theorem decode_resync_witness :
    idleMachine.state = state_t.WAITING ∧
      (feed idleMachine [0x90, 0x40, 0x90, 0x41, 0x7F]).calls = [Call.noteOn 0x41 0 0x80] := by
  have h := decode_resync idleMachine 0 0 0x40 0x41 0x7F rfl (by decide) (by decide)
    (by decide) (by decide) (by decide) (by decide)
  exact ⟨rfl, h.1⟩

/-- C14: after the complete message `[0x90|c, n1, v1]`, the bytes `[n2, v2]`
with no status byte make a second `noteOn`, for note `n2` and the same
instrument `c`; after `[0x80|c, n1, v1]` they make a second `noteOff(n2, c)`. -/
theorem decode_running_status (g : Machine) (c n1 n2 v1 v2 : Nat)
    (hg : g.state = state_t.WAITING) (hc : c ≤ 15)
    (hn1 : n1 ≤ 127) (hn2 : n2 ≤ 127)
    (hv1 : 1 ≤ v1 ∧ v1 ≤ 127) (hv2 : 1 ≤ v2 ∧ v2 ≤ 127) :
    (feed g [0x90 ||| c, n1, v1]).calls = g.calls ++ [Call.noteOn n1 c (255 - v1)] ∧
      (feed (feed g [0x90 ||| c, n1, v1]) [n2, v2]).calls
        = g.calls ++ [Call.noteOn n1 c (255 - v1), Call.noteOn n2 c (255 - v2)] ∧
      (feed g [0x80 ||| c, n1, v1]).calls = g.calls ++ [Call.noteOff n1 c] ∧
      (feed (feed g [0x80 ||| c, n1, v1]) [n2, v2]).calls
        = g.calls ++ [Call.noteOff n1 c, Call.noteOff n2 c] := by
  have hkb : g.state ≠ state_t.KEYBOARD_MODE := by rw [hg]; decide
  rw [or_0x90 c (by omega), or_0x80 c (by omega)]
  obtain ⟨hs1, ho1, hi1, hc1, _, _⟩ := dispatch_header g 0x90 c hkb (Or.inl rfl) (by omega)
  obtain ⟨hs2, ho2, hi2, hc2, _, _⟩ := dispatch_header g 0x80 c hkb (Or.inr rfl) (by omega)
  have hf1 : feed g [0x90 + c, n1, v1] = feed (dispatch g (0x90 + c)) [n1, v1] := rfl
  have hf2 : feed g [0x80 + c, n1, v1] = feed (dispatch g (0x80 + c)) [n1, v1] := rfl
  obtain ⟨hbs1, hbo1, hbi1, hbc1⟩ :=
    feed_body (dispatch g (0x90 + c)) n1 v1 hs1 (by omega) (by omega)
  obtain ⟨hbs2, hbo2, hbi2, hbc2⟩ :=
    feed_body (dispatch g (0x80 + c)) n1 v1 hs2 (by omega) (by omega)
  obtain ⟨_, _, _, hcc1⟩ :=
    feed_body (feed (dispatch g (0x90 + c)) [n1, v1]) n2 v2 hbs1 (by omega) (by omega)
  obtain ⟨_, _, _, hcc2⟩ :=
    feed_body (feed (dispatch g (0x80 + c)) [n1, v1]) n2 v2 hbs2 (by omega) (by omega)
  have hv1n : v1 ≠ 0 := by omega
  have hv2n : v2 ≠ 0 := by omega
  rw [hf1, hf2, hcc1, hcc2, hbo1, hbo2, hbi1, hbi2, hbc1, hbc2, ho1, ho2, hi1, hi2, hc1, hc2]
  simp [hv1n, hv2n]

/-- Witness for C14: `[0x90, 0x40, 0x7F]` then `[0x41, 0x7F]` yields a second
`noteOn`, for note `0x41`. -/
theorem decode_running_status_witness :
    idleMachine.state = state_t.WAITING ∧
      (feed (feed idleMachine [0x90, 0x40, 0x7F]) [0x41, 0x7F]).calls
        = [Call.noteOn 0x40 0 0x80, Call.noteOn 0x41 0 0x80] := by
  have h := decode_running_status idleMachine 0 0x40 0x41 0x7F 0x7F rfl (by decide)
    (by decide) (by decide) (by decide) (by decide)
  exact ⟨rfl, h.2.1⟩

/-- C15: a decoder in `WAITING` that receives a data byte, or a status byte
whose high nibble is neither 8 nor 9, stays in `WAITING` and makes no allocator
call. -/
theorem waiting_absorbs_malformed (g : Machine) (b : Nat)
    (hg : g.state = state_t.WAITING)
    (hb : b < 0x80 ∨ (0x80 ≤ b ∧ b ≤ 0xFF ∧ b / 16 ≠ 8 ∧ b / 16 ≠ 9)) :
    (dispatch g b).state = state_t.WAITING ∧ (dispatch g b).calls = g.calls ∧
      (dispatch g b).chip = g.chip := by
  rw [dispatch_of_waiting g b hg]
  rcases hb with h | ⟨hlo, hhi, h8, h9⟩
  · rw [waiting_data g b h]
    exact ⟨rfl, rfl, rfl⟩
  · have hcases : (0xA0 ≤ b ∧ b ≤ 0xEF) ∨ 0xF0 ≤ b := by omega
    rcases hcases with h | h
    · rw [waiting_other g b h.1 h.2]
      exact ⟨rfl, rfl, rfl⟩
    · rw [waiting_system g b h hhi]
      exact ⟨hg, rfl, rfl⟩

/-- Witness for C15: the data byte `0x40` and the status byte `0xB2` in `WAITING`. -/
theorem waiting_absorbs_malformed_witness :
    idleMachine.state = state_t.WAITING ∧
      (dispatch idleMachine 0x40).state = state_t.WAITING ∧
      (dispatch idleMachine 0xB2).state = state_t.WAITING ∧
      (dispatch idleMachine 0xB2).calls = [] := by
  have h1 := waiting_absorbs_malformed idleMachine 0x40 rfl (Or.inl (by decide))
  have h2 := waiting_absorbs_malformed idleMachine 0xB2 rfl
    (Or.inr ⟨by decide, by decide, by decide, by decide⟩)
  exact ⟨rfl, h1.1, h2.1, h2.2.1⟩

end Synth

namespace Synth

open YM2413

/-! ## The key scan -/

theorem bitState_zero_or_one (arr : Fin (NUM_KEYS / 8 + 1) → Nat) (bit : Nat) :
    bitState arr bit = 0 ∨ bitState arr bit = 1 := by
  unfold bitState
  by_cases h : byteAt arr (bit / 8) &&& (1 <<< (bit % 8)) ≠ 0
  · rw [if_pos h]; exact Or.inr rfl
  · rw [if_neg h]; exact Or.inl rfl

theorem keyScan_succ (g : Machine) (keyboard : keyboard_t) (rem : Nat) :
    keyScan g keyboard (rem + 1)
      = keyScan (keyStep g keyboard (NUM_KEYS - (rem + 1))) keyboard rem := rfl

theorem keyStep_calls (g : Machine) (keyboard : keyboard_t) (i : Nat) (hi : i < NUM_KEYS) :
    (keyStep g keyboard i).calls
        = g.calls ++ (keyEvent keyboard g.kbdInstrument i).toList ∧
      (keyStep g keyboard i).kbdInstrument = g.kbdInstrument ∧
      (keyStep g keyboard i).state = g.state ∧
      (keyStep g keyboard i).message = g.message := by
  have hoff : (i + NOTE_OFFSET) % 256 = i + 36 := by
    simp only [NUM_KEYS, NOTE_OFFSET] at hi ⊢; omega
  unfold keyStep keyEvent
  rcases bitState_zero_or_one keyboard.current i with hc | hc <;>
    rcases bitState_zero_or_one keyboard.last i with hl | hl <;>
    simp [hc, hl, hoff, callNoteOn, callNoteOff]

theorem keyScan_spec (keyboard : keyboard_t) (rem : Nat) :
    ∀ g : Machine, rem ≤ NUM_KEYS →
      (keyScan g keyboard rem).calls = g.calls ++
          (List.range' (NUM_KEYS - rem) rem).filterMap (keyEvent keyboard g.kbdInstrument) ∧
        (keyScan g keyboard rem).kbdInstrument = g.kbdInstrument ∧
        (keyScan g keyboard rem).state = g.state ∧
        (keyScan g keyboard rem).message = g.message := by
  induction rem with
  | zero =>
    intro g _
    exact ⟨by simp [keyScan], rfl, rfl, rfl⟩
  | succ r ih =>
    intro g hr
    have hi : NUM_KEYS - (r + 1) < NUM_KEYS := Nat.sub_lt (by decide) (Nat.succ_pos r)
    obtain ⟨hc1, hk1, hs1, hm1⟩ := keyStep_calls g keyboard (NUM_KEYS - (r + 1)) hi
    obtain ⟨hc2, hk2, hs2, hm2⟩ := ih (keyStep g keyboard (NUM_KEYS - (r + 1))) (by omega)
    have hsub : NUM_KEYS - (r + 1) + 1 = NUM_KEYS - r := by
      simp only [NUM_KEYS] at hr ⊢; omega
    rw [keyScan_succ]
    refine ⟨?_, by rw [hk2, hk1], by rw [hs2, hs1], by rw [hm2, hm1]⟩
    rw [hc2, hc1, hk1, List.range'_succ, hsub, List.append_assoc]
    congr 1
    cases hev : keyEvent keyboard g.kbdInstrument (NUM_KEYS - (r + 1)) with
    | none => simp [List.filterMap_cons, hev]
    | some c => simp [List.filterMap_cons, hev]

/-- C16: for every pair of key bitmaps the key scan of the main loop makes its
allocator calls for exactly the key indices `i` in `0..36` whose current bit
differs from the last bit, in increasing order of `i`: `noteOn(i + 36,
kbdInstrument, 0x2F)` when the current bit is set, `noteOff(i + 36,
kbdInstrument)` when it is clear; every scanned index lies inside the 5-byte
arrays. -/
theorem key_edge_detection (g : Machine) (keyboard : keyboard_t) :
    (keyScan g keyboard NUM_KEYS).calls = g.calls ++
        (List.range NUM_KEYS).filterMap (fun i =>
          if bitState keyboard.current i = bitState keyboard.last i then none
          else if bitState keyboard.current i = 1 then
            some (Call.noteOn (i + 36) g.kbdInstrument 0x2F)
          else some (Call.noteOff (i + 36) g.kbdInstrument)) ∧
      (∀ i, i < NUM_KEYS → i / 8 < NUM_KEYS / 8 + 1) := by
  refine ⟨?_, fun i hi => ?_⟩
  · have h := (keyScan_spec keyboard NUM_KEYS g (le_refl _)).1
    rw [Nat.sub_self, ← List.range_eq_range'] at h
    exact h
  · simp only [NUM_KEYS] at hi ⊢; omega

/-- Witness for C16 on `sampleKeys`: key 0 was released and key 1 pressed. -/
theorem key_edge_detection_witness :
    (keyScan idleMachine sampleKeys NUM_KEYS).calls
        = [Call.noteOff 36 3, Call.noteOn 37 3 0x2F] ∧
      36 < NUM_KEYS ∧ 36 / 8 < NUM_KEYS / 8 + 1 := by
  have h := key_edge_detection idleMachine sampleKeys
  exact ⟨h.1.trans (by decide), by decide, h.2 36 (by decide)⟩

/-! ## One iteration of the main loop -/

theorem waiting_absorbs_or_header (g : Machine) (b : Nat)
    (hg : g.state = state_t.WAITING) (hb : b ≤ 0xFF) :
    (dispatch g b).chip = g.chip ∧ (dispatch g b).calls = g.calls ∧
      ((b / 16 = 9 ∨ b / 16 = 8) → (dispatch g b).state = state_t.ONE_BYTE) ∧
      (b / 16 ≠ 9 → b / 16 ≠ 8 → (dispatch g b).state = state_t.WAITING) := by
  rw [dispatch_of_waiting g b hg]
  have hcases : b < 0x80 ∨ b ≤ 0x8F ∧ 0x80 ≤ b ∨ (0x90 ≤ b ∧ b ≤ 0x9F) ∨
      (0xA0 ≤ b ∧ b ≤ 0xEF) ∨ 0xF0 ≤ b := by omega
  rcases hcases with h | h | h | h | h
  · rw [waiting_data g b h]
    exact ⟨rfl, rfl, fun h98 => by omega, fun _ _ => rfl⟩
  · rw [waiting_note_off g b h.2 h.1]
    exact ⟨rfl, rfl, fun _ => rfl, fun _ h8 => by omega⟩
  · rw [waiting_note_on g b h.1 h.2]
    exact ⟨rfl, rfl, fun _ => rfl, fun h9 _ => by omega⟩
  · rw [waiting_other g b h.1 h.2]
    exact ⟨rfl, rfl, fun h98 => by omega, fun _ _ => rfl⟩
  · rw [waiting_system g b h hb]
    exact ⟨rfl, rfl, fun h98 => by omega, fun _ _ => hg⟩

theorem dispatch_calls (g : Machine) (b : Nat) (hb : b ≤ 0xFF) :
    ∃ l, (dispatch g b).calls = g.calls ++ l ∧ Call.killAll ∉ l := by
  have hnil : ∀ m : Machine, m.calls = g.calls →
      ∃ l, m.calls = g.calls ++ l ∧ Call.killAll ∉ l :=
    fun m hm => ⟨[], by rw [hm, List.append_nil], List.not_mem_nil _⟩
  have hwait : ∀ st : state_t, ({ (waiting g b).2 with state := st } : Machine).calls
      = g.calls := by
    intro st
    have hcases : b < 0x80 ∨ b ≤ 0x8F ∧ 0x80 ≤ b ∨ (0x90 ≤ b ∧ b ≤ 0x9F) ∨
        (0xA0 ≤ b ∧ b ≤ 0xEF) ∨ 0xF0 ≤ b := by omega
    rcases hcases with h | h | h | h | h
    · rw [waiting_data g b h]
    · rw [waiting_note_off g b h.2 h.1]
    · rw [waiting_note_on g b h.1 h.2]
    · rw [waiting_other g b h.1 h.2]
    · rw [waiting_system g b h hb]
  cases hs : g.state with
  | WAITING =>
    rw [dispatch_of_waiting g b hs]
    exact hnil _ (hwait _)
  | ONE_BYTE =>
    rw [dispatch_of_one_byte g b hs]
    by_cases h : b < 0x80
    · rw [one_byte_data g b h]
      exact hnil _ rfl
    · rw [one_byte_status g b (by omega) hb]
      exact hnil _ (hwait _)
  | TWO_BYTES =>
    rw [dispatch_of_two_bytes g b hs]
    by_cases h : b < 0x80
    · by_cases hop : g.message.opcode = NOTE_ON_OPCODE
      · by_cases hb0 : b = 0
        · subst hb0
          rw [two_bytes_on_zero g hop]
          exact ⟨[Call.noteOff g.message.note g.message.instrument], rfl, by simp⟩
        · rw [two_bytes_on_vel g b (by omega) h hop]
          exact ⟨[Call.noteOn g.message.note g.message.instrument (255 - b)], rfl, by simp⟩
      · rw [two_bytes_off g b h hop]
        exact ⟨[Call.noteOff g.message.note g.message.instrument], rfl, by simp⟩
    · rw [two_bytes_status g b (by omega) hb]
      exact hnil _ (hwait _)
  | KEYBOARD_MODE =>
    have hd : dispatch g b = g := by simp only [dispatch, hs]
    rw [hd]
    exact hnil g rfl

theorem keyEvent_ne_killAll (keyboard : keyboard_t) (instr : Nat) (l : List Nat) :
    Call.killAll ∉ l.filterMap (keyEvent keyboard instr) := by
  intro hmem
  rw [List.mem_filterMap] at hmem
  obtain ⟨i, _, hi⟩ := hmem
  unfold keyEvent at hi
  split_ifs at hi <;> simp at hi

/-- C19 (as stated, refuted): an iteration that switches from `KEYBOARD_MODE`
to MIDI and reads the status byte `0x90` ends with `state = ONE_BYTE`, not
`WAITING`. -/
theorem mode_switch_counterexample :
    keyboardMachine.state = state_t.KEYBOARD_MODE ∧
      (mainLoop keyboardMachine true 0x90 sampleKeys).calls = [Call.killAll] ∧
      (mainLoop keyboardMachine true 0x90 sampleKeys).state = state_t.ONE_BYTE ∧
      (mainLoop keyboardMachine true 0x90 sampleKeys).state ≠ state_t.WAITING := by
  decide

/-- C19 (amended): in an iteration whose sampled mode differs from the recorded
one, `killAll` is called before any `noteOn` or `noteOff` of that iteration.
On a switch to MIDI it is the only call, `state` is set to `WAITING` and the
byte read in the same iteration is then dispatched from `WAITING`, so the
iteration ends in `ONE_BYTE` when that byte has high nibble 9 or 8 and in
`WAITING` otherwise.  On a switch to the keyboard the iteration ends in
`KEYBOARD_MODE`.  In an iteration with no mode change `killAll` is not
called. -/
theorem mode_switch_flush (g : Machine) (input : Nat) (keyboard : keyboard_t)
    (hin : input ≤ 0xFF) :
    (g.state = state_t.KEYBOARD_MODE →
        (mainLoop g true input keyboard).calls = g.calls ++ [Call.killAll] ∧
          mainLoop g true input keyboard
            = dispatch { callKillAll g with state := state_t.WAITING } input ∧
          ((input / 16 = 9 ∨ input / 16 = 8) →
            (mainLoop g true input keyboard).state = state_t.ONE_BYTE) ∧
          (input / 16 ≠ 9 → input / 16 ≠ 8 →
            (mainLoop g true input keyboard).state = state_t.WAITING)) ∧
      (g.state ≠ state_t.KEYBOARD_MODE →
        (mainLoop g false input keyboard).calls = g.calls ++
            Call.killAll :: (List.range NUM_KEYS).filterMap (keyEvent keyboard g.kbdInstrument) ∧
          Call.killAll ∉ (List.range NUM_KEYS).filterMap (keyEvent keyboard g.kbdInstrument) ∧
          (mainLoop g false input keyboard).state = state_t.KEYBOARD_MODE) ∧
      (g.state ≠ state_t.KEYBOARD_MODE →
        ∃ l, (mainLoop g true input keyboard).calls = g.calls ++ l ∧ Call.killAll ∉ l) ∧
      (g.state = state_t.KEYBOARD_MODE →
        (∃ l, (mainLoop g false input keyboard).calls = g.calls ++ l ∧ Call.killAll ∉ l) ∧
          (mainLoop g false input keyboard).state = state_t.KEYBOARD_MODE) := by
  refine ⟨fun hs => ?_, fun hs => ?_, fun hs => ?_, fun hs => ?_⟩
  · have hrun : mainLoop g true input keyboard
        = dispatch { callKillAll g with state := state_t.WAITING } input := by
      simp [mainLoop, hs]
    have hd := dispatch_of_waiting { callKillAll g with state := state_t.WAITING } input rfl
    rw [hrun]
    refine ⟨?_, rfl, fun h98 => ?_, fun h9 h8 => ?_⟩
    · obtain ⟨_, hcalls, _⟩ := waiting_absorbs_or_header
          { callKillAll g with state := state_t.WAITING } input rfl hin
      rw [hcalls]; rfl
    · exact (waiting_absorbs_or_header _ input rfl hin).2.2.1 h98
    · exact (waiting_absorbs_or_header _ input rfl hin).2.2.2 h9 h8
  · have hrun : mainLoop g false input keyboard
        = keyScan { callKillAll g with state := state_t.KEYBOARD_MODE } keyboard NUM_KEYS := by
      simp [mainLoop, hs]
    obtain ⟨hc, _, hst, _⟩ := keyScan_spec keyboard NUM_KEYS
      { callKillAll g with state := state_t.KEYBOARD_MODE } (le_refl _)
    rw [Nat.sub_self, ← List.range_eq_range'] at hc
    rw [hrun, hc, hst]
    refine ⟨?_, keyEvent_ne_killAll _ _ _, rfl⟩
    show (g.calls ++ [Call.killAll]) ++ _ = _
    rw [List.append_assoc]; rfl
  · have hrun : mainLoop g true input keyboard = dispatch g input := by
      simp [mainLoop, hs]
    rw [hrun]
    exact dispatch_calls g input hin
  · have hrun : mainLoop g false input keyboard = keyScan g keyboard NUM_KEYS := by
      simp [mainLoop, hs]
    obtain ⟨hc, _, hst, _⟩ := keyScan_spec keyboard NUM_KEYS g (le_refl _)
    rw [hrun, hst]
    exact ⟨⟨_, hc, keyEvent_ne_killAll _ _ _⟩, hs⟩

/-- Witness for C19 (amended): a switch to MIDI that reads `0x90`, and a switch
to the keyboard. -/
theorem mode_switch_flush_witness :
    keyboardMachine.state = state_t.KEYBOARD_MODE ∧
      (mainLoop keyboardMachine true 0x90 sampleKeys).calls
        = keyboardMachine.calls ++ [Call.killAll] ∧
      (mainLoop keyboardMachine true 0x90 sampleKeys).state = state_t.ONE_BYTE ∧
      idleMachine.state ≠ state_t.KEYBOARD_MODE ∧
      (mainLoop idleMachine false 0x90 sampleKeys).state = state_t.KEYBOARD_MODE := by
  have h1 := (mode_switch_flush keyboardMachine 0x90 sampleKeys (by decide)).1 rfl
  have hne : idleMachine.state ≠ state_t.KEYBOARD_MODE := by decide
  have h2 := (mode_switch_flush idleMachine 0x90 sampleKeys (by decide)).2.1 hne
  exact ⟨rfl, h1.1, h1.2.2.1 (Or.inl (by decide)), hne, h2.2.2⟩

end Synth

namespace YM2413

/-! ## The bus protocol of `writeRegister` -/

/-- C17: the statements of `writeRegister(addr, data)` assert chip-select
(`CS = 0`) exactly twice.  At the first assertion `ADDR = 0`, `WE = 0` and port
`P3` holds `addr`; at the second, later one `ADDR = 1`, `WE = 0` and `P3` holds
`data`.  Each assertion comes after a delay that follows the assignment to
`P3`, and is followed by a delay before `CS = 1`.  On return `WE = 1`,
`CS = 1` and `ADDR = 1`. -/
theorem writeRegister_bus_protocol (addr data : Nat) (l0 : Bus.Lines) :
    (Bus.writeRegister addr data).count (Bus.Op.CS 0) = 2 ∧
      ∃ pre mid post : List Bus.Op,
        Bus.writeRegister addr data
            = pre ++ (Bus.Op.CS 0 :: mid) ++ (Bus.Op.CS 0 :: post) ∧
          pre.count (Bus.Op.CS 0) = 0 ∧ mid.count (Bus.Op.CS 0) = 0 ∧
          post.count (Bus.Op.CS 0) = 0 ∧
          (Bus.run l0 pre).ADDR = 0 ∧ (Bus.run l0 pre).WE = 0 ∧
          (Bus.run l0 pre).P3 = addr ∧
          (Bus.run l0 (pre ++ (Bus.Op.CS 0 :: mid))).ADDR = 1 ∧
          (Bus.run l0 (pre ++ (Bus.Op.CS 0 :: mid))).WE = 0 ∧
          (Bus.run l0 (pre ++ (Bus.Op.CS 0 :: mid))).P3 = data ∧
          (∃ (a q : List Bus.Op) (t : Nat),
            pre = a ++ (Bus.Op.P3 addr :: q) ++ [Bus.Op.delay_us t] ∧ 0 < t ∧
              q.any Bus.isPortWrite = false) ∧
          (∃ (a q : List Bus.Op) (t : Nat),
            mid = a ++ (Bus.Op.P3 data :: q) ++ [Bus.Op.delay_us t] ∧ 0 < t ∧
              q.any Bus.isPortWrite = false) ∧
          (∃ (t : Nat) (r : List Bus.Op),
            mid = Bus.Op.delay_us t :: r ∧ 0 < t ∧ 0 < r.count (Bus.Op.CS 1)) ∧
          (∃ (t : Nat) (r : List Bus.Op),
            post = Bus.Op.delay_us t :: r ∧ 0 < t ∧ 0 < r.count (Bus.Op.CS 1)) ∧
          (Bus.run l0 (Bus.writeRegister addr data)).WE = 1 ∧
          (Bus.run l0 (Bus.writeRegister addr data)).CS = 1 ∧
          (Bus.run l0 (Bus.writeRegister addr data)).ADDR = 1 := by
  refine ⟨by simp [Bus.writeRegister, List.count_cons], ?_⟩
  refine ⟨[Bus.Op.WE 0, Bus.Op.ADDR 0, Bus.Op.delay_us 2, Bus.Op.P3 addr, Bus.Op.delay_us 2],
    [Bus.Op.delay_us 2, Bus.Op.CS 1, Bus.Op.WE 1, Bus.Op.ADDR 1, Bus.Op.delay_us 2,
      Bus.Op.P3 data, Bus.Op.WE 0, Bus.Op.delay_us 2],
    [Bus.Op.delay_us 2, Bus.Op.WE 1, Bus.Op.CS 1],
    rfl, by simp [List.count_cons], by simp [List.count_cons], by simp [List.count_cons],
    rfl, rfl, rfl, rfl, rfl, rfl, ?_, ?_, ?_, ?_, rfl, rfl, rfl⟩
  · exact ⟨[Bus.Op.WE 0, Bus.Op.ADDR 0, Bus.Op.delay_us 2], [], 2, rfl, by decide, rfl⟩
  · exact ⟨[Bus.Op.delay_us 2, Bus.Op.CS 1, Bus.Op.WE 1, Bus.Op.ADDR 1, Bus.Op.delay_us 2],
      [Bus.Op.WE 0], 2, rfl, by decide, rfl⟩
  · exact ⟨2, _, rfl, by decide, by simp [List.count_cons]⟩
  · exact ⟨2, _, rfl, by decide, by simp [List.count_cons]⟩

end YM2413

namespace YM2413

/-! ## The register writes of a successful `noteOn` -/

theorem get_octave_le (note : Nat) : get_octave note ≤ 7 := by
  unfold get_octave
  by_cases h : note > 95
  · rw [if_pos h]
  · rw [if_neg h]; exact Nat.and_le_right

theorem instrument_byte (instr vol : Nat) :
    ((((instr <<< 4) &&& 0xF0) % 256) ||| (((vol >>> 3) % 256) &&& 0xF)) % 256
      = ((instr &&& 0xF) <<< 4) ||| ((vol >>> 3) &&& 0xF) := by
  have hi : (instr <<< 4) &&& 0xF0 = (instr &&& 0xF) <<< 4 := by
    apply Nat.eq_of_testBit_eq
    intro i
    simp only [Nat.testBit_and, Nat.testBit_shiftLeft]
    have h240 : (0xF0 : Nat) = 0xF <<< 4 := by decide
    rw [h240, Nat.testBit_shiftLeft]
    cases decide (i ≥ 4) <;> simp
  have hilt : (instr &&& 0xF) <<< 4 < 256 := by
    have h1 : instr &&& 0xF ≤ 0xF := Nat.and_le_right
    rw [Nat.shiftLeft_eq]; omega
  have hv : ((vol >>> 3) % 256) &&& 0xF = (vol >>> 3) &&& 0xF := by
    have h1 := Nat.and_pow_two_sub_one_eq_mod ((vol >>> 3) % 256) 4
    have h2 := Nat.and_pow_two_sub_one_eq_mod (vol >>> 3) 4
    have h1' : ((vol >>> 3) % 256) &&& 0xF = (vol >>> 3) % 256 % 16 := h1
    have h2' : (vol >>> 3) &&& 0xF = (vol >>> 3) % 16 := h2
    rw [h1', h2']; omega
  have hvlt : (vol >>> 3) &&& 0xF < 256 := by
    have h1 : (vol >>> 3) &&& 0xF ≤ 0xF := Nat.and_le_right
    omega
  rw [hi, Nat.mod_eq_of_lt hilt, hv]
  exact Nat.mod_eq_of_lt (Nat.or_lt_two_pow (n := 8) hilt hvlt)

theorem dataLo_eq (note : Nat) : dataLo note = get_fnum note &&& 0xFF := by
  unfold dataLo
  have h : get_fnum note &&& 0xFF ≤ 0xFF := Nat.and_le_right
  exact Nat.mod_eq_of_lt (by omega)

theorem dataHi_on_eq (note : Nat) :
    dataHi note NOTE_ON
      = 0x10 ||| ((get_fnum note >>> 8) &&& 1) ||| (get_octave note <<< 1) := by
  unfold dataHi
  have hx : (get_fnum note >>> 8) &&& 0x01 ≤ 0x01 := Nat.and_le_right
  have hy := get_octave_le note
  generalize (get_fnum note >>> 8) &&& 0x01 = x at hx
  generalize get_octave note = y at hy
  interval_cases x <;> interval_cases y <;> decide

theorem claimed_writes (s : State) (v : Fin MAX_VOICES) (note instr vol : Nat) :
    (claimed s v note instr vol).writes = s.writes ++
      [(0x30 + v.val, ((instr &&& 0xF) <<< 4) ||| ((vol >>> 3) &&& 0xF)),
       (0x10 + v.val, get_fnum note &&& 0xFF),
       (0x20 + v.val, 0x10 ||| ((get_fnum note >>> 8) &&& 1) ||| (get_octave note <<< 1))] := by
  have hv := v.isLt
  have h30 : (0x30 + v.val) % 256 = 0x30 + v.val := by
    simp only [MAX_VOICES] at hv; omega
  have h10 : (0x10 + v.val) % 256 = 0x10 + v.val := by
    simp only [MAX_VOICES] at hv; omega
  have h20 : (0x20 + v.val) % 256 = 0x20 + v.val := by
    simp only [MAX_VOICES] at hv; omega
  show (setNote (setInstrument s v instr ((vol >>> 3) % 256)) v note NOTE_ON).writes = _
  rw [setNote_writes, setInstrument_writes, instrument_byte, dataLo_eq, dataHi_on_eq,
    h30, h10, h20, List.append_assoc]
  rfl

/-- C18: when `noteOn(note, instr, vol)` claims voice `v` (the first Off slot
from the cursor), it returns 0 and emits exactly three register writes, in this
order: `(0x30 + v, ((instr & 0xF) << 4) | ((vol >> 3) & 0xF))`,
`(0x10 + v, get_fnum(note) & 0xFF)` and
`(0x20 + v, 0x10 | ((get_fnum(note) >> 8) & 1) | (get_octave(note) << 1))`;
the address offset `v` is the index of the slot that becomes On. -/
theorem noteOn_register_writes (s : State) (note instr vol : Nat)
    (hoff : ∃ j, (s.synth.voices j).state = NOTE_OFF) :
    ∃ (k : Nat) (v : Fin MAX_VOICES), k < MAX_VOICES ∧
      v.val = (s.voiceItr + k) % MAX_VOICES ∧
      (s.synth.voices v).state = NOTE_OFF ∧
      (∀ (i : Nat) (u : Fin MAX_VOICES), i < k → u.val = (s.voiceItr + i) % MAX_VOICES →
        (s.synth.voices u).state ≠ NOTE_OFF) ∧
      (noteOn s note instr vol).1 = 0 ∧
      ((noteOn s note instr vol).2.synth.voices v).state = NOTE_ON ∧
      (noteOn s note instr vol).2.writes = s.writes ++
        [(0x30 + v.val, ((instr &&& 0xF) <<< 4) ||| ((vol >>> 3) &&& 0xF)),
         (0x10 + v.val, get_fnum note &&& 0xFF),
         (0x20 + v.val,
           0x10 ||| ((get_fnum note >>> 8) &&& 1) ||| (get_octave note <<< 1))] := by
  obtain ⟨k, hk, hko, hmin⟩ := exists_least_off s hoff
  have hrun := noteOn_of_least_off s note instr vol k hk hko hmin
  refine ⟨k, slotAt s k, hk, ?_, hko, ?_, ?_, ?_, ?_⟩
  · simp only [slotAt]; rw [Nat.add_comm]
  · intro i u hi hu
    have hus : u = slotAt s i := by
      apply Fin.ext; simp only [slotAt]; rw [hu, Nat.add_comm]
    rw [hus]; exact hmin i hi
  · rw [hrun]
  · rw [hrun]; simp only [claimed_voices]; rw [Function.update_same]
  · rw [hrun]; exact claimed_writes s (slotAt s k) note instr vol

/-- Witness for C18 on `mixedTable`: the cursor is 7, slots 7, 8 and 0 are On,
so voice 1 is claimed. -/
theorem noteOn_register_writes_witness :
    (∃ j, (mixedTable.synth.voices j).state = NOTE_OFF) ∧
      (noteOn mixedTable 64 2 100).1 = 0 ∧
      (noteOn mixedTable 64 2 100).2.writes = [(0x31, 0x2C), (0x11, 216), (0x21, 0x1A)] := by
  have hoff : ∃ j, (mixedTable.synth.voices j).state = NOTE_OFF := ⟨⟨1, by decide⟩, by decide⟩
  obtain ⟨_, _, _, _, _, _, h, _, _⟩ := noteOn_register_writes mixedTable 64 2 100 hoff
  exact ⟨hoff, h, by decide⟩

end YM2413

namespace YM2413

/-! ## The allocator invariant -/

theorem resetSynthLoop_succ (s : State) (rem : Nat) :
    resetSynthLoop s (rem + 1) =
      resetSynthLoop
        (resetStep s ⟨MAX_VOICES - (rem + 1), Nat.sub_lt (by decide) (Nat.succ_pos rem)⟩) rem :=
  rfl

theorem resetStep_voices (s : State) (v : Fin MAX_VOICES) :
    (resetStep s v).synth.voices = Function.update s.synth.voices v ⟨0, guitar, NOTE_OFF⟩ := by
  simp [resetStep, setNote_voices, setInstrument_voices]
  rfl

theorem resetStep_voiceItr (s : State) (v : Fin MAX_VOICES) :
    (resetStep s v).voiceItr = s.voiceItr := rfl

theorem resetSynthLoop_spec (rem : Nat) :
    ∀ s : State, rem ≤ MAX_VOICES →
      (resetSynthLoop s rem).voiceItr = s.voiceItr ∧
        ∀ j : Fin MAX_VOICES, (resetSynthLoop s rem).synth.voices j =
          if MAX_VOICES - rem ≤ j.val then ⟨0, guitar, NOTE_OFF⟩ else s.synth.voices j := by
  induction rem with
  | zero =>
    intro s _
    refine ⟨rfl, fun j => ?_⟩
    have hj := j.isLt
    rw [if_neg (by omega)]
    rfl
  | succ r ih =>
    intro s hr
    have hv0 : MAX_VOICES - (r + 1) < MAX_VOICES := Nat.sub_lt (by decide) (Nat.succ_pos r)
    rw [resetSynthLoop_succ]
    obtain ⟨hcur, hvoices⟩ := ih (resetStep s ⟨MAX_VOICES - (r + 1), hv0⟩) (by omega)
    refine ⟨by rw [hcur, resetStep_voiceItr], fun j => ?_⟩
    rw [hvoices j, resetStep_voices]
    by_cases hj : j = ⟨MAX_VOICES - (r + 1), hv0⟩
    · subst hj
      rw [Function.update_same, if_pos (le_refl _)]
      simp
    · have hne : j.val ≠ MAX_VOICES - (r + 1) := fun h => hj (Fin.ext h)
      have hiff : MAX_VOICES - r ≤ j.val ↔ MAX_VOICES - (r + 1) ≤ j.val := by
        simp only [MAX_VOICES] at hr hne ⊢; omega
      simp only [hiff, Function.update_noteq hj]

theorem resetSynth_spec (s : State) :
    (resetSynth s).voiceItr = 0 ∧
      ∀ j : Fin MAX_VOICES, (resetSynth s).synth.voices j = ⟨0, guitar, NOTE_OFF⟩ := by
  refine ⟨rfl, fun j => ?_⟩
  have h := (resetSynthLoop_spec MAX_VOICES (writeRegister s 0x0E 0x00) (le_refl _)).2 j
  rw [if_pos (by omega)] at h
  exact h

theorem AllocInv_resetSynth (s : State) : AllocInv (resetSynth s) := by
  obtain ⟨hcur, hvoices⟩ := resetSynth_spec s
  refine ⟨by rw [hcur]; decide, fun j => ?_⟩
  rw [hvoices j]
  exact ⟨Or.inl rfl, by decide⟩

theorem AllocInv_noteOn (s : State) (note instr vol : Nat) (h : AllocInv s) :
    AllocInv (noteOn s note instr vol).2 := by
  obtain ⟨_, hslots⟩ := h
  have hcur : ((s.voiceItr + 1) % MAX_VOICES) % 256 < MAX_VOICES := by
    simp only [MAX_VOICES]; omega
  by_cases hoff : ∃ j, (s.synth.voices j).state = NOTE_OFF
  · obtain ⟨k, hk, hko, hmin⟩ := exists_least_off s hoff
    rw [noteOn_of_least_off s note instr vol k hk hko hmin]
    refine ⟨hcur, fun j => ?_⟩
    show _ ∧ _
    rw [claimed_voices]
    by_cases hj : j = slotAt s k
    · subst hj
      rw [Function.update_same]
      have hle : instr &&& 0xF ≤ 0xF := Nat.and_le_right
      exact ⟨Or.inr rfl, by show instr &&& 0xF < 16; omega⟩
    · rw [Function.update_noteq hj]
      exact hslots j
  · rw [noteOn_of_no_off s note instr vol (fun j hj => hoff ⟨j, hj⟩)]
    exact ⟨hcur, hslots⟩

theorem AllocInv_noteOff (s : State) (note instr : Nat) (h : AllocInv s) :
    AllocInv (noteOff s note instr).2 := by
  obtain ⟨hcur, hslots⟩ := h
  by_cases hex : ∃ v, Matches s note instr v
  · obtain ⟨w, hw, hwmin⟩ := exists_least_match s note instr hex
    rw [noteOff_of_least_match s note instr w hw hwmin]
    refine ⟨hcur, fun j => ?_⟩
    show _ ∧ _
    rw [setNote_voices]
    by_cases hj : j = w
    · subst hj
      rw [Function.update_same]
      exact ⟨Or.inl rfl, (hslots j).2⟩
    · rw [Function.update_noteq hj]
      exact hslots j
  · rw [noteOff_of_no_match s note instr (fun v hv => hex ⟨v, hv⟩)]
    exact ⟨hcur, hslots⟩

theorem AllocInv_killAll (s : State) (h : AllocInv s) : AllocInv (killAll s) := by
  obtain ⟨hcur, hslots⟩ := h
  obtain ⟨hc, hvoices, _⟩ := killAll_spec s
  refine ⟨by rw [hc]; exact hcur, fun j => ?_⟩
  rw [hvoices j]
  exact ⟨Or.inl rfl, (hslots j).2⟩

/-- C20: the predicate "cursor `voiceItr < 9`, every slot has state Off (0) or
On (1) and instrument below 16" holds after `resetSynth` and is preserved by
`noteOn`, `noteOff` and `killAll` for all arguments. -/
theorem allocator_invariant (s : State) (note instr vol : Nat) :
    AllocInv (resetSynth s) ∧
      (AllocInv s → AllocInv (noteOn s note instr vol).2) ∧
      (AllocInv s → AllocInv (noteOff s note instr).2) ∧
      (AllocInv s → AllocInv (killAll s)) :=
  ⟨AllocInv_resetSynth s, AllocInv_noteOn s note instr vol, AllocInv_noteOff s note instr,
    AllocInv_killAll s⟩

/-- Witness for C20 on `mixedTable`. -/
theorem allocator_invariant_witness :
    AllocInv mixedTable ∧ AllocInv (noteOn mixedTable 64 2 100).2 ∧
      AllocInv (noteOff mixedTable 60 3).2 ∧ AllocInv (killAll mixedTable) := by
  have hinv : AllocInv mixedTable := by
    refine ⟨by decide, fun j => ?_⟩
    revert j
    decide
  have h := allocator_invariant mixedTable 64 2 100
  have h2 := allocator_invariant mixedTable 60 3 0
  exact ⟨hinv, h.2.1 hinv, h2.2.2.1 hinv, h.2.2.2 hinv⟩

end YM2413

namespace YM2413

/-! ## The register writes of `resetSynth` -/

theorem resetStep_writes (s : State) (v : Fin MAX_VOICES) :
    (resetStep s v).writes = s.writes ++ resetWrites v := by
  have hv := v.isLt
  have h30 : (0x30 + v.val) % 256 = 0x30 + v.val := by
    simp only [MAX_VOICES] at hv; omega
  have h10 : (0x10 + v.val) % 256 = 0x10 + v.val := by
    simp only [MAX_VOICES] at hv; omega
  have h20 : (0x20 + v.val) % 256 = 0x20 + v.val := by
    simp only [MAX_VOICES] at hv; omega
  show (setInstrument (setNote s v 0 NOTE_OFF) v guitar 0xF).writes = _
  rw [setInstrument_writes, setNote_writes, h30, h10, h20, List.append_assoc]
  rfl

theorem resetSynthLoop_writes (rem : Nat) :
    ∀ s : State, rem ≤ MAX_VOICES →
      (resetSynthLoop s rem).writes =
        s.writes ++ ((List.finRange MAX_VOICES).drop (MAX_VOICES - rem)).flatMap resetWrites := by
  induction rem with
  | zero =>
    intro s _
    have hnil : (List.finRange MAX_VOICES).drop (MAX_VOICES - 0) = [] := rfl
    rw [hnil]
    simp [resetSynthLoop]
  | succ r ih =>
    intro s hr
    have hv0 : MAX_VOICES - (r + 1) < MAX_VOICES := Nat.sub_lt (by decide) (Nat.succ_pos r)
    have hsub : MAX_VOICES - (r + 1) + 1 = MAX_VOICES - r := by
      simp only [MAX_VOICES] at hr ⊢; omega
    rw [resetSynthLoop_succ, ih _ (by omega), resetStep_writes,
      finRange_drop (MAX_VOICES - (r + 1)) hv0, hsub, List.flatMap_cons, List.append_assoc]

/-- C21: after `resetSynth` every one of the 9 slots has note 0, instrument
guitar (2) and state Off, the cursor is 0, and the register writes emitted
start with `(0x0E, 0x00)`, followed by the per-voice writes for voices `0..8`
(three each, to `0x10 + v`, `0x20 + v` and `0x30 + v`). -/
theorem resetSynth_startup_state (s : State) :
    (∀ j : Fin MAX_VOICES, (resetSynth s).synth.voices j = ⟨0, 2, NOTE_OFF⟩) ∧
      (resetSynth s).voiceItr = 0 ∧
      (resetSynth s).writes = s.writes ++ (0x0E, 0x00) ::
        (List.finRange MAX_VOICES).flatMap (fun v =>
          [(0x10 + v.val, dataLo 0), (0x20 + v.val, dataHi 0 NOTE_OFF), (0x30 + v.val, 0x2F)]) ∧
      ((List.finRange MAX_VOICES).flatMap (fun v =>
          [(0x10 + v.val, dataLo 0), (0x20 + v.val, dataHi 0 NOTE_OFF),
            (0x30 + v.val, 0x2F)])).length = 27 := by
  obtain ⟨hcur, hvoices⟩ := resetSynth_spec s
  refine ⟨hvoices, hcur, ?_, rfl⟩
  have h := resetSynthLoop_writes MAX_VOICES (writeRegister s 0x0E 0x00) (le_refl _)
  show (resetSynthLoop (writeRegister s 0x0E 0x00) MAX_VOICES).writes = _
  rw [h]
  show (s.writes ++ [(0x0E, 0x00)]) ++ _ = _
  rw [List.append_assoc]
  rfl

/-! ## The pitch registers -/

theorem get_fnum_mem (note : Nat) : get_fnum note ∈ fnum_lookup :=
  List.get_mem _ _ _

theorem fnum_lookup_lt : ∀ f ∈ fnum_lookup, f < 512 := by decide

theorem pitch_fields (f o st : Nat) (hf : f ∈ fnum_lookup) (ho : o ≤ 7) :
    f = (f &&& 0xFF) % 256 +
        256 * ((((((if st ≠ NOTE_OFF then 0x10 else 0x00) ||| ((f >>> 8) &&& 0x01)) % 256)
          ||| ((o &&& 0x07) <<< 1)) % 256) &&& 1) ∧
      o = ((((((if st ≠ NOTE_OFF then 0x10 else 0x00) ||| ((f >>> 8) &&& 0x01)) % 256)
          ||| ((o &&& 0x07) <<< 1)) % 256) >>> 1) &&& 7 ∧
      gateBit st = ((((((if st ≠ NOTE_OFF then 0x10 else 0x00) ||| ((f >>> 8) &&& 0x01)) % 256)
          ||| ((o &&& 0x07) <<< 1)) % 256) >>> 4) &&& 1 ∧
      (((((if st ≠ NOTE_OFF then 0x10 else 0x00) ||| ((f >>> 8) &&& 0x01)) % 256)
          ||| ((o &&& 0x07) <<< 1)) % 256) < 32 := by
  have hcases : ∀ g : Nat, g = 0x10 ∨ g = 0x00 → ∀ f ∈ fnum_lookup, ∀ o, o < 8 →
      f = (f &&& 0xFF) % 256 +
          256 * (((((g ||| ((f >>> 8) &&& 0x01)) % 256) ||| ((o &&& 0x07) <<< 1)) % 256) &&& 1) ∧
        o = (((((g ||| ((f >>> 8) &&& 0x01)) % 256) ||| ((o &&& 0x07) <<< 1)) % 256) >>> 1)
          &&& 7 ∧
        g / 16 = (((((g ||| ((f >>> 8) &&& 0x01)) % 256) ||| ((o &&& 0x07) <<< 1)) % 256) >>> 4)
          &&& 1 ∧
        ((((g ||| ((f >>> 8) &&& 0x01)) % 256) ||| ((o &&& 0x07) <<< 1)) % 256) < 32 := by
    intro g hg
    rcases hg with h | h <;> (subst h; decide)
  unfold gateBit
  by_cases hst : st ≠ NOTE_OFF
  · simp only [if_pos hst]
    have h := hcases 0x10 (Or.inl rfl) f hf o (by omega)
    exact h
  · simp only [if_neg hst]
    have h := hcases 0x00 (Or.inr rfl) f hf o (by omega)
    exact h

/-- C28: every entry of `fnum_lookup` is below 512, and the two data bytes
`d10`, `d20` that `setNote` writes to `0x10 + v` and `0x20 + v` satisfy
`get_fnum(note) = d10 + 256 * (d20 & 1)`, `get_octave(note) = (d20 >> 1) & 7`,
`gate = (d20 >> 4) & 1` (gate is 1 unless the state is `NOTE_OFF`), with bits
5..7 of `d20` equal to 0. -/
theorem pitch_encoding_lossless (s : State) (v : Fin MAX_VOICES) (note state : Nat) :
    (∀ f ∈ fnum_lookup, f < 512) ∧
      ∃ d10 d20 : Nat,
        (setNote s v note state).writes
            = s.writes ++ [((0x10 + v.val) % 256, d10), ((0x20 + v.val) % 256, d20)] ∧
          (0x10 + v.val) % 256 = 0x10 + v.val ∧ (0x20 + v.val) % 256 = 0x20 + v.val ∧
          get_fnum note = d10 + 256 * (d20 &&& 1) ∧
          get_octave note = (d20 >>> 1) &&& 7 ∧
          gateBit state = (d20 >>> 4) &&& 1 ∧
          d20 >>> 5 = 0 ∧ d10 < 256 := by
  have hv := v.isLt
  have h10 : (0x10 + v.val) % 256 = 0x10 + v.val := by
    simp only [MAX_VOICES] at hv; omega
  have h20 : (0x20 + v.val) % 256 = 0x20 + v.val := by
    simp only [MAX_VOICES] at hv; omega
  obtain ⟨hf, ho, hg, hlt⟩ :=
    pitch_fields (get_fnum note) (get_octave note) state (get_fnum_mem note) (get_octave_le note)
  refine ⟨fnum_lookup_lt, dataLo note, dataHi note state, setNote_writes s v note state,
    h10, h20, hf, ho, hg, ?_, Nat.mod_lt _ (by decide)⟩
  have hlt' : dataHi note state < 32 := hlt
  rw [Nat.shiftRight_eq_div_pow]
  exact Nat.div_eq_of_lt hlt'

/-- Witness for C28: the largest table entry, 323 (note 59, the B of octave 4). -/
theorem pitch_encoding_lossless_witness :
    323 ∈ fnum_lookup ∧ 323 < 512 ∧ get_fnum 59 = 323 :=
  ⟨by decide,
    (pitch_encoding_lossless emptyTable ⟨0, by decide⟩ 59 NOTE_ON).1 323 (by decide),
    by decide⟩

end YM2413

namespace YM2413

/-! ## Instruments outside the 4-bit field -/

theorem and_0xF_eq (instr : Nat) (h : instr ≤ 15) : instr &&& 0xF = instr := by
  have h1 : instr &&& 0xF = instr % 16 := Nat.and_pow_two_sub_one_eq_mod instr 4
  rw [h1]; omega

theorem and_0xF_le (instr : Nat) : instr &&& 0xF ≤ 15 := Nat.and_le_right

/-- C24 (as stated, refuted): on the all-Off table `noteOn(60, 16, 100)`
returns 0 and stores instrument `16 & 0xF = 0`, and the `noteOff(60, 16)` that
follows returns -1. -/
theorem instrument_identity_counterexample :
    (∃ j, (emptyTable.synth.voices j).state = NOTE_OFF) ∧ 16 ≤ 255 ∧
      (noteOn emptyTable 60 16 100).1 = 0 ∧
      ((noteOn emptyTable 60 16 100).2.synth.voices ⟨4, by decide⟩).instrument = 0 ∧
      (noteOff (noteOn emptyTable 60 16 100).2 60 16).1 = -1 :=
  ⟨⟨⟨0, by decide⟩, by decide⟩, by decide, by decide, by decide, by decide⟩

/-- C24 (amended): on a table with at least one Off slot whose stored
instruments fit the 4-bit field, `noteOn(note, instr, vol)` returns 0 and
stores `instr & 0xF` in the claimed slot, and the `noteOff(note, instr)` that
follows returns 0 exactly when `instr` is in `0..15`; for `instr >= 16` it
returns -1. -/
theorem instrument_identity (s : State) (note instr vol : Nat)
    (hoff : ∃ j, (s.synth.voices j).state = NOTE_OFF)
    (hfield : ∀ j, (s.synth.voices j).instrument < 16) :
    (noteOn s note instr vol).1 = 0 ∧
      (∃ v : Fin MAX_VOICES, (s.synth.voices v).state = NOTE_OFF ∧
        (noteOn s note instr vol).2.synth.voices v = ⟨note, instr &&& 0xF, NOTE_ON⟩) ∧
      ((noteOff (noteOn s note instr vol).2 note instr).1 = 0 ↔ instr ≤ 15) ∧
      (16 ≤ instr → (noteOff (noteOn s note instr vol).2 note instr).1 = -1) := by
  obtain ⟨k, hk, hko, hmin⟩ := exists_least_off s hoff
  have hrun := noteOn_of_least_off s note instr vol k hk hko hmin
  rw [hrun]
  have hslot : (claimed s (slotAt s k) note instr vol).synth.voices (slotAt s k)
      = ⟨note, instr &&& 0xF, NOTE_ON⟩ := by
    rw [claimed_voices, Function.update_same]
  have hall : ∀ j, ((claimed s (slotAt s k) note instr vol).synth.voices j).instrument < 16 := by
    intro j
    rw [claimed_voices]
    by_cases hj : j = slotAt s k
    · subst hj
      rw [Function.update_same]
      have := and_0xF_le instr
      show instr &&& 0xF < 16
      omega
    · rw [Function.update_noteq hj]
      exact hfield j
  have hbig : 16 ≤ instr →
      (noteOff (claimed s (slotAt s k) note instr vol) note instr).1 = -1 := by
    intro h16
    rw [noteOff_of_no_match _ note instr]
    intro v hv
    have h1 := hall v
    rw [hv.2.2] at h1
    omega
  have hsmall : instr ≤ 15 →
      (noteOff (claimed s (slotAt s k) note instr vol) note instr).1 = 0 := by
    intro h15
    have hex : ∃ v, Matches (claimed s (slotAt s k) note instr vol) note instr v :=
      ⟨slotAt s k, by unfold Matches; rw [hslot, and_0xF_eq instr h15]; exact ⟨rfl, rfl, rfl⟩⟩
    obtain ⟨w, hw, hwmin⟩ := exists_least_match _ note instr hex
    rw [noteOff_of_least_match _ note instr w hw hwmin]
  refine ⟨rfl, ⟨slotAt s k, hko, hslot⟩, ⟨fun h0 => ?_, hsmall⟩, hbig⟩
  by_contra hgt
  have hneg := hbig (by omega)
  rw [hneg] at h0
  exact absurd h0 (by decide)

/-- Witness for C24 (amended) on `emptyTable`: instrument 3 is found again,
instrument 16 is not. -/
theorem instrument_identity_witness :
    (∃ j, (emptyTable.synth.voices j).state = NOTE_OFF) ∧
      (∀ j, (emptyTable.synth.voices j).instrument < 16) ∧
      (noteOff (noteOn emptyTable 60 3 100).2 60 3).1 = 0 ∧
      (noteOff (noteOn emptyTable 60 16 100).2 60 16).1 = -1 := by
  have hoff : ∃ j, (emptyTable.synth.voices j).state = NOTE_OFF := ⟨⟨0, by decide⟩, by decide⟩
  have hfield : ∀ j, (emptyTable.synth.voices j).instrument < 16 := fun _ => (by decide : (0 : Nat) < 16)
  have h3 := instrument_identity emptyTable 60 3 100 hoff hfield
  have h16 := instrument_identity emptyTable 60 16 100 hoff hfield
  exact ⟨hoff, hfield, h3.2.2.1.mpr (by decide), h16.2.2.2 (by decide)⟩

end YM2413

namespace YM2420

open YM2413 (State voice_t MAX_VOICES NOTE_OFF NOTE_ON emptyTable fullTable)

/-! ## The YM2420 variant -/

theorem noteOnLoop_success_voiceItr (s : State) (note instr : Nat) (rem : Nat)
    (h : (noteOnLoop s note instr rem).1 = 0) :
    (noteOnLoop s note instr rem).2.voiceItr = s.voiceItr := by
  induction rem with
  | zero =>
    have h0 : (-1 : Int) = 0 := h
    exact absurd h0 (by decide)
  | succ r ih =>
    rw [noteOnLoop] at h ⊢
    split_ifs at h ⊢ with hoff
    · rfl
    · exact ih h

/-- Whenever the YM2420 `noteOn` returns 0 the cursor is unchanged. -/
theorem noteOn_success_voiceItr (s : State) (note instr : Nat)
    (h : (noteOn s note instr).1 = 0) :
    (noteOn s note instr).2.voiceItr = s.voiceItr :=
  noteOnLoop_success_voiceItr s note instr MAX_VOICES h

/-- C22 (code at the failing input): on the all-Off table with cursor 4 the
YM2420 `noteOn(60, 2)` returns 0 and leaves the cursor at 4, not at
`(4 + 1) % 9 = 5`; on the full table with cursor 4 it returns -1 and moves the
cursor to 5. -/
theorem noteOn_success_keeps_cursor :
    emptyTable.voiceItr = 4 ∧ (noteOn emptyTable 60 2).1 = 0 ∧
      (noteOn emptyTable 60 2).2.voiceItr = 4 ∧
      (noteOn emptyTable 60 2).2.voiceItr ≠ (emptyTable.voiceItr + 1) % MAX_VOICES ∧
      (YM2413.noteOn emptyTable 60 2 100).2.voiceItr = (emptyTable.voiceItr + 1) % MAX_VOICES ∧
      (noteOn fullTable 60 2).1 = -1 ∧
      (noteOn fullTable 60 2).2.voiceItr = (fullTable.voiceItr + 1) % MAX_VOICES := by
  decide

/-- C23: the two `fnum_lookup` tables have 12 entries each and are equal at
every index except exactly index 10 (305 against 205), so the two `get_fnum`
agree on a note exactly when `note % 12` is not 10. -/
theorem fnum_tables_differ_at_one_index (note : Nat) :
    YM2413.fnum_lookup.length = 12 ∧ fnum_lookup.length = 12 ∧
      (∀ i : Fin 12, YM2413.fnum_lookup[i.val]? = fnum_lookup[i.val]? ↔ i.val ≠ 10) ∧
      YM2413.fnum_lookup[10]? = some 305 ∧ fnum_lookup[10]? = some 205 ∧
      (YM2413.get_fnum note = get_fnum note ↔ note % 12 ≠ 10) := by
  refine ⟨rfl, rfl, by decide, rfl, rfl, ?_⟩
  have hlt : note % 12 < 12 := Nat.mod_lt note (by decide)
  have hall : ∀ i : Fin 12,
      (YM2413.fnum_lookup.get ⟨i.val, i.isLt⟩ = fnum_lookup.get ⟨i.val, i.isLt⟩ ↔ i.val ≠ 10) := by
    decide
  exact hall ⟨note % 12, hlt⟩

/-- Witness for C23: notes 70 (`70 % 12 = 10`) and 71. -/
theorem fnum_tables_differ_at_one_index_witness :
    YM2413.get_fnum 70 ≠ get_fnum 70 ∧ YM2413.get_fnum 71 = get_fnum 71 := by
  have h70 := (fnum_tables_differ_at_one_index 70).2.2.2.2.2
  have h71 := (fnum_tables_differ_at_one_index 71).2.2.2.2.2
  exact ⟨fun h => absurd (h70.mp h) (by decide), h71.mpr (by decide)⟩

end YM2420

namespace Synth

open YM2413

/-! ## System bytes -/

theorem dispatch_system (g : Machine) (b : Nat) (hlo : 0xF0 ≤ b) (hhi : b ≤ 0xFF) :
    dispatch g b = g := by
  by_cases hkb : g.state = state_t.KEYBOARD_MODE
  · simp only [dispatch, hkb]
  · rw [dispatch_status g b hkb (by omega) hhi, waiting_system g b hlo hhi]

theorem feed_cons (g : Machine) (b : Nat) (bytes : List Nat) :
    feed g (b :: bytes) = feed (dispatch g b) bytes := rfl

theorem feed_append (g : Machine) (l1 l2 : List Nat) :
    feed g (l1 ++ l2) = feed (feed g l1) l2 := by
  unfold feed
  rw [List.foldl_append]

theorem feed_filter_system (bytes : List Nat) :
    ∀ g : Machine, feed g (bytes.filter (fun b => !isSystemByte b)) = feed g bytes := by
  induction bytes with
  | nil => intro g; rfl
  | cons b rest ih =>
    intro g
    by_cases hb : isSystemByte b = true
    · have hsys : 0xF0 ≤ b ∧ b ≤ 0xFF := by
        simpa [isSystemByte] using hb
      rw [List.filter_cons_of_neg (by simp [hb]), ih g, feed_cons,
        dispatch_system g b hsys.1 hsys.2]
    · rw [List.filter_cons_of_pos (by simp [hb]), feed_cons, feed_cons, ih]

/-- C25: in every decoder state a byte in `0xF0..0xFF` leaves the state, the
message buffer and everything else unchanged and makes no call; so deleting
all bytes in `0xF0..0xFF` from a byte sequence gives the same calls and the same
final decoder state. -/
theorem system_bytes_transparent (g : Machine) (bytes : List Nat) :
    (∀ b, 0xF0 ≤ b → b ≤ 0xFF →
        (dispatch g b).state = g.state ∧ (dispatch g b).message = g.message ∧
          (dispatch g b).calls = g.calls ∧ (dispatch g b).chip = g.chip) ∧
      (feed g (bytes.filter (fun b => !(decide (0xF0 ≤ b) && decide (b ≤ 0xFF))))).calls
        = (feed g bytes).calls ∧
      (feed g (bytes.filter (fun b => !(decide (0xF0 ≤ b) && decide (b ≤ 0xFF))))).state
        = (feed g bytes).state ∧
      (feed g (bytes.filter (fun b => !(decide (0xF0 ≤ b) && decide (b ≤ 0xFF))))).message
        = (feed g bytes).message := by
  have h := feed_filter_system bytes g
  have h1 : feed g (bytes.filter (fun b => !(decide (0xF0 ≤ b) && decide (b ≤ 0xFF))))
      = feed g bytes := h
  refine ⟨fun b hlo hhi => ?_, by rw [h1], by rw [h1], by rw [h1]⟩
  rw [dispatch_system g b hlo hhi]
  exact ⟨rfl, rfl, rfl, rfl⟩

/-- Witness for C25: `0xF8` in `ONE_BYTE`, and a message with system bytes
inside it. -/
theorem system_bytes_transparent_witness :
    (dispatch midMessage 0xF8).state = state_t.ONE_BYTE ∧
      (dispatch midMessage 0xF8).message = midMessage.message ∧
      (feed idleMachine [0x90, 0xFF, 0x40, 0xF8, 0x7F]).calls = [Call.noteOn 0x40 0 0x80] ∧
      (feed idleMachine [0x90, 0x40, 0x7F]).calls
        = (feed idleMachine [0x90, 0xFF, 0x40, 0xF8, 0x7F]).calls := by
  have h := (system_bytes_transparent midMessage []).1 0xF8 (by decide) (by decide)
  have h2 := (system_bytes_transparent idleMachine [0x90, 0xFF, 0x40, 0xF8, 0x7F]).2.1
  exact ⟨h.1, h.2.1, by decide, h2⟩

/-! ## The key index of `updateKeyboard` -/

/-- C29 (code at the failing input): for `row = 0`, `col = 0`, the first pair
`updateKeyboard` scans, the key index is the byte 251, not below `NUM_KEYS`,
and the byte index `251 / 8 = 31` is outside the 5-byte arrays; the same
happens for `col = 0` and every `row` in `0..4`, while every scanned pair with
`col * 6 + row >= 5` gives a key below `NUM_KEYS`. -/
theorem key_index_outside_bitmap :
    keyIndex 0 0 = 251 ∧ ¬ keyIndex 0 0 < NUM_KEYS ∧
      keyIndex 0 0 / 8 = 31 ∧ ¬ keyIndex 0 0 / 8 < NUM_KEYS / 8 + 1 ∧
      scannedKeys.head? = some 251 ∧
      (scannedKeys.filter (fun key => decide (NUM_KEYS ≤ key))) = [251, 252, 253, 254, 255] ∧
      (List.range ROWS).all (fun row => (List.range COLS).all (fun col =>
        decide (5 ≤ col * ROWS + row) == decide (keyIndex row col < NUM_KEYS))) = true := by
  decide

end Synth

namespace Synth

open YM2413

/-! ## The range of the decoder output -/

theorem DecoderInv_mono (seen seen1 : List Nat) (g : Machine) (hsub : seen ⊆ seen1)
    (h : DecoderInv seen g) : DecoderInv seen1 g :=
  ⟨h.1, h.2.1, fun hs => ⟨hsub (h.2.2 hs).1, (h.2.2 hs).2⟩⟩

theorem DecoderCallOk_mono (seen seen1 : List Nat) (c : Call) (hsub : seen ⊆ seen1)
    (h : DecoderCallOk seen c) : DecoderCallOk seen1 c := by
  cases c with
  | noteOn note instr vol =>
    obtain ⟨h1, h2, h3, vel, h4, h5⟩ := h
    exact ⟨hsub h1, h2, h3, vel, hsub h4, h5⟩
  | noteOff note instr =>
    obtain ⟨h1, h2, h3⟩ := h
    exact ⟨hsub h1, h2, h3⟩
  | killAll => exact h

theorem inv_of_waiting (seen : List Nat) (m : Machine) (hs : m.state = state_t.WAITING) :
    DecoderInv seen m :=
  ⟨by rw [hs]; decide, fun hne => absurd hs hne, fun h => by rw [hs] at h; exact absurd h (by decide)⟩

theorem inv_of_one_byte (seen : List Nat) (m : Machine) (hs : m.state = state_t.ONE_BYTE)
    (hi : m.message.instrument ≤ 15) : DecoderInv seen m :=
  ⟨by rw [hs]; decide, fun _ => hi, fun h => by rw [hs] at h; exact absurd h (by decide)⟩

theorem inv_of_two_bytes (seen : List Nat) (m : Machine) (hs : m.state = state_t.TWO_BYTES)
    (hi : m.message.instrument ≤ 15) (hn : m.message.note ∈ seen ∧ m.message.note ≤ 127) :
    DecoderInv seen m :=
  ⟨by rw [hs]; decide, fun _ => hi, fun _ => hn⟩

/-- A status byte keeps the invariant and makes no call. -/
theorem waiting_inv (seen : List Nat) (g : Machine) (b : Nat) (hinv : DecoderInv seen g)
    (hlo : 0x80 ≤ b) (hhi : b ≤ 0xFF) :
    DecoderInv (seen ++ [b]) { (waiting g b).2 with state := (waiting g b).1 } ∧
      ({ (waiting g b).2 with state := (waiting g b).1 } : Machine).calls = g.calls := by
  have hmod : b % 16 ≤ 15 := by omega
  have hcases : b ≤ 0x8F ∨ (0x90 ≤ b ∧ b ≤ 0x9F) ∨ (0xA0 ≤ b ∧ b ≤ 0xEF) ∨ 0xF0 ≤ b := by omega
  rcases hcases with h | h | h | h
  · rw [waiting_note_off g b hlo h]
    exact ⟨inv_of_one_byte _ _ rfl hmod, rfl⟩
  · rw [waiting_note_on g b h.1 h.2]
    exact ⟨inv_of_one_byte _ _ rfl hmod, rfl⟩
  · rw [waiting_other g b h.1 h.2]
    exact ⟨inv_of_waiting _ _ rfl, rfl⟩
  · rw [waiting_system g b h hhi]
    have hm := DecoderInv_mono seen (seen ++ [b]) g (List.subset_append_left _ _) hinv
    exact ⟨hm, rfl⟩

/-- One decoder step keeps the invariant; it makes a call only in `TWO_BYTES`
on a data byte, and that call is in range. -/
theorem dispatch_inv (seen : List Nat) (g : Machine) (b : Nat) (hinv : DecoderInv seen g)
    (hb : b ≤ 0xFF) :
    DecoderInv (seen ++ [b]) (dispatch g b) ∧
      ∃ l, (dispatch g b).calls = g.calls ++ l ∧
        (∀ c ∈ l, DecoderCallOk (seen ++ [b]) c) ∧
        (l ≠ [] → g.state = state_t.TWO_BYTES ∧ b < 0x80) := by
  have hbmem : b ∈ seen ++ [b] := List.mem_append_right _ (List.mem_singleton_self b)
  have hsub : seen ⊆ seen ++ [b] := List.subset_append_left _ _
  have hstatus : 0x80 ≤ b →
      DecoderInv (seen ++ [b]) (dispatch g b) ∧
        ∃ l, (dispatch g b).calls = g.calls ++ l ∧
          (∀ c ∈ l, DecoderCallOk (seen ++ [b]) c) ∧
          (l ≠ [] → g.state = state_t.TWO_BYTES ∧ b < 0x80) := by
    intro hlo
    rw [dispatch_status g b hinv.1 hlo hb]
    obtain ⟨h1, h2⟩ := waiting_inv seen g b hinv hlo hb
    exact ⟨h1, [], by rw [h2, List.append_nil], fun c hc => absurd hc (List.not_mem_nil c),
      fun hne => absurd rfl hne⟩
  by_cases hdata : b < 0x80
  · cases hs : g.state with
    | WAITING =>
      rw [dispatch_of_waiting g b hs, waiting_data g b hdata]
      exact ⟨inv_of_waiting _ _ rfl,
        [], by simp, fun c hc => absurd hc (List.not_mem_nil c), fun hne => absurd rfl hne⟩
    | ONE_BYTE =>
      have hinstr : g.message.instrument ≤ 15 := hinv.2.1 (by rw [hs]; decide)
      rw [dispatch_of_one_byte g b hs, one_byte_data g b hdata]
      exact ⟨inv_of_two_bytes _ _ rfl hinstr ⟨hbmem, (by omega : b ≤ 127)⟩,
        [], by simp, fun c hc => absurd hc (List.not_mem_nil c), fun hne => absurd rfl hne⟩
    | TWO_BYTES =>
      have hinstr : g.message.instrument ≤ 15 := hinv.2.1 (by rw [hs]; decide)
      obtain ⟨hnmem, hnote⟩ := hinv.2.2 hs
      rw [dispatch_of_two_bytes g b hs]
      by_cases hop : g.message.opcode = NOTE_ON_OPCODE
      · by_cases hb0 : b = 0
        · subst hb0
          rw [two_bytes_on_zero g hop]
          refine ⟨inv_of_one_byte _ _ rfl hinstr,
            [Call.noteOff g.message.note g.message.instrument], rfl, ?_, fun _ => ⟨rfl, hdata⟩⟩
          intro c hc
          rw [List.mem_singleton] at hc
          subst hc
          exact ⟨hsub hnmem, hnote, hinstr⟩
        · rw [two_bytes_on_vel g b (by omega) hdata hop]
          refine ⟨inv_of_one_byte _ _ rfl hinstr,
            [Call.noteOn g.message.note g.message.instrument (255 - b)], rfl, ?_,
            fun _ => ⟨rfl, hdata⟩⟩
          intro c hc
          rw [List.mem_singleton] at hc
          subst hc
          exact ⟨hsub hnmem, hnote, hinstr, b, hbmem, by omega, by omega, rfl⟩
      · rw [two_bytes_off g b hdata hop]
        refine ⟨inv_of_one_byte _ _ rfl hinstr,
          [Call.noteOff g.message.note g.message.instrument], rfl, ?_, fun _ => ⟨rfl, hdata⟩⟩
        intro c hc
        rw [List.mem_singleton] at hc
        subst hc
        exact ⟨hsub hnmem, hnote, hinstr⟩
    | KEYBOARD_MODE => exact absurd hs hinv.1
  · exact hstatus (by omega)

theorem feed_inv (bytes : List Nat) :
    ∀ (seen : List Nat) (g : Machine), DecoderInv seen g → (∀ b ∈ bytes, b ≤ 0xFF) →
      DecoderInv (seen ++ bytes) (feed g bytes) ∧
        ∃ l, (feed g bytes).calls = g.calls ++ l ∧
          ∀ c ∈ l, DecoderCallOk (seen ++ bytes) c := by
  induction bytes with
  | nil =>
    intro seen g hinv _
    rw [List.append_nil]
    exact ⟨hinv, [], by simp [feed], fun c hc => absurd hc (List.not_mem_nil c)⟩
  | cons b rest ih =>
    intro seen g hinv hb
    obtain ⟨hinv1, l1, hc1, hok1, _⟩ :=
      dispatch_inv seen g b hinv (hb b (List.mem_cons_self _ _))
    obtain ⟨hinv2, l2, hc2, hok2⟩ :=
      ih (seen ++ [b]) (dispatch g b) hinv1 (fun x hx => hb x (List.mem_cons_of_mem _ hx))
    have hlist : seen ++ [b] ++ rest = seen ++ b :: rest := by simp
    rw [hlist] at hinv2 hok2
    rw [feed_cons]
    refine ⟨hinv2, l1 ++ l2, by rw [hc2, hc1, List.append_assoc], fun c hc => ?_⟩
    rcases List.mem_append.mp hc with h | h
    · refine DecoderCallOk_mono (seen ++ [b]) _ c ?_ (hok1 c h)
      intro x hx
      rw [← hlist]
      exact List.mem_append_left _ hx
    · exact hok2 c h

/-- C26: for every byte sequence fed to a decoder that starts in `WAITING`,
the state after every prefix is `WAITING`, `ONE_BYTE` or `TWO_BYTES`; every
call made is a `noteOn` or `noteOff` whose note is a received byte at most 127
and whose instrument is at most 15, and the volume argument of every `noteOn`
is the byte `~vel` of a received velocity byte `vel` in `1..127`; a byte makes
a call only when it is a data byte received in `TWO_BYTES`, where the note of
the current message has been captured. -/
theorem decoder_output_range (g : Machine) (bytes : List Nat)
    (hg : g.state = state_t.WAITING) (hb : ∀ b ∈ bytes, b ≤ 0xFF) :
    (∀ k, (feed g (bytes.take k)).state = state_t.WAITING ∨
        (feed g (bytes.take k)).state = state_t.ONE_BYTE ∨
        (feed g (bytes.take k)).state = state_t.TWO_BYTES) ∧
      (∃ l, (feed g bytes).calls = g.calls ++ l ∧ ∀ c ∈ l, DecoderCallOk bytes c) ∧
      (∀ k b, bytes[k]? = some b →
        (feed g (bytes.take (k + 1))).calls ≠ (feed g (bytes.take k)).calls →
          (feed g (bytes.take k)).state = state_t.TWO_BYTES ∧
            (feed g (bytes.take k)).message.note ∈ bytes.take k ∧
            (feed g (bytes.take k)).message.note ≤ 127 ∧ b < 0x80) := by
  have hinit : DecoderInv [] g :=
    ⟨by rw [hg]; decide, fun hne => absurd hg hne, fun h => by rw [hg] at h; exact absurd h (by decide)⟩
  have hpre : ∀ k, DecoderInv (bytes.take k) (feed g (bytes.take k)) := by
    intro k
    have h := (feed_inv (bytes.take k) [] g hinit
      (fun x hx => hb x (List.mem_of_mem_take hx))).1
    rw [List.nil_append] at h
    exact h
  refine ⟨fun k => ?_, ?_, fun k b hkb hne => ?_⟩
  · have hk := (hpre k).1
    cases hs : (feed g (bytes.take k)).state with
    | WAITING => exact Or.inl rfl
    | ONE_BYTE => exact Or.inr (Or.inl rfl)
    | TWO_BYTES => exact Or.inr (Or.inr rfl)
    | KEYBOARD_MODE => exact absurd hs hk
  · have h := (feed_inv bytes [] g hinit hb).2
    rw [List.nil_append] at h
    exact h
  · have htake : bytes.take (k + 1) = bytes.take k ++ [b] := by
      rw [List.take_succ, hkb]; rfl
    have hbmem : b ∈ bytes := List.getElem?_mem hkb
    obtain ⟨_, l, hcalls, _, honly⟩ :=
      dispatch_inv (bytes.take k) (feed g (bytes.take k)) b (hpre k) (hb b hbmem)
    have hstep : feed g (bytes.take (k + 1)) = dispatch (feed g (bytes.take k)) b := by
      rw [htake, feed_append]; rfl
    rw [hstep, hcalls] at hne
    have hl : l ≠ [] := by
      intro hnil
      rw [hnil, List.append_nil] at hne
      exact hne rfl
    obtain ⟨hst, hdata⟩ := honly hl
    obtain ⟨hnmem, hnote⟩ := (hpre k).2.2 hst
    exact ⟨hst, hnmem, hnote, hdata⟩

/-- Witness for C26 on `[0x90, 0x40, 0x7F, 0xB0, 0x41, 0x00]` from `idleMachine`. -/
theorem decoder_output_range_witness :
    idleMachine.state = state_t.WAITING ∧
      (∀ b ∈ [0x90, 0x40, 0x7F, 0xB0, 0x41, 0x00], b ≤ 0xFF) ∧
      (feed idleMachine [0x90, 0x40, 0x7F, 0xB0, 0x41, 0x00]).calls = [Call.noteOn 0x40 0 0x80] ∧
      ((feed idleMachine ([0x90, 0x40, 0x7F, 0xB0, 0x41, 0x00].take 4)).state = state_t.WAITING ∨
        (feed idleMachine ([0x90, 0x40, 0x7F, 0xB0, 0x41, 0x00].take 4)).state
          = state_t.ONE_BYTE ∨
        (feed idleMachine ([0x90, 0x40, 0x7F, 0xB0, 0x41, 0x00].take 4)).state
          = state_t.TWO_BYTES) := by
  have hb : ∀ b ∈ [0x90, 0x40, 0x7F, 0xB0, 0x41, 0x00], b ≤ 0xFF := by decide
  have h := decoder_output_range idleMachine [0x90, 0x40, 0x7F, 0xB0, 0x41, 0x00] rfl hb
  exact ⟨rfl, hb, by decide, h.1 4⟩

end Synth

namespace Synth

open YM2413

/-! ## From velocity to the volume field -/

theorem complement_volume (v : Nat) (hv : v ≤ 127) :
    ((255 - v) >>> 3) &&& 0xF = 15 - (v >>> 3) := by
  have h1 : ((255 - v) >>> 3) &&& 0xF = ((255 - v) >>> 3) % 16 :=
    Nat.and_pow_two_sub_one_eq_mod _ 4
  rw [h1, Nat.shiftRight_eq_div_pow, Nat.shiftRight_eq_div_pow]
  omega

theorem low_nibble (c x : Nat) (hc : c ≤ 15) (hx : x ≤ 15) :
    ((c <<< 4) ||| x) &&& 0xF = x := by
  interval_cases c <;> interval_cases x <;> rfl

/-- C27: for a velocity byte `v` in `1..127` received in `TWO_BYTES` under the
note-on opcode with captured instrument `c <= 15`, on a table with an Off
slot, the path `two_bytes -> noteOn(note, c, ~v) -> setInstrument` writes to
register `0x30 + k` of the claimed voice `k` the byte
`(c << 4) | (15 - (v >> 3))`; its low nibble, the volume field, is
`15 - (v >> 3)`, which is non-increasing in `v`, 0 for `v` in `120..127` and
15 for `v` in `1..7`. -/
theorem velocity_to_volume (g : Machine) (v : Nat)
    (hst : g.state = state_t.TWO_BYTES) (hop : g.message.opcode = NOTE_ON_OPCODE)
    (hc : g.message.instrument ≤ 15) (hv1 : 1 ≤ v) (hv : v ≤ 127)
    (hoff : ∃ j, (g.chip.synth.voices j).state = NOTE_OFF) :
    (dispatch g v).calls
        = g.calls ++ [Call.noteOn g.message.note g.message.instrument (255 - v)] ∧
      (∃ k : Fin MAX_VOICES, (g.chip.synth.voices k).state = NOTE_OFF ∧
        ((dispatch g v).chip.synth.voices k).state = NOTE_ON ∧
        (dispatch g v).chip.writes = g.chip.writes ++
          [(0x30 + k.val, (g.message.instrument <<< 4) ||| (15 - (v >>> 3))),
           (0x10 + k.val, get_fnum g.message.note &&& 0xFF),
           (0x20 + k.val, 0x10 ||| ((get_fnum g.message.note >>> 8) &&& 1)
              ||| (get_octave g.message.note <<< 1))]) ∧
      ((g.message.instrument <<< 4) ||| (15 - (v >>> 3))) &&& 0xF = 15 - (v >>> 3) ∧
      (120 ≤ v → 15 - (v >>> 3) = 0) ∧
      (v ≤ 7 → 15 - (v >>> 3) = 15) ∧
      (∀ w, v ≤ w → 15 - (w >>> 3) ≤ 15 - (v >>> 3)) := by
  have hdisp : dispatch g v = { callNoteOn { g with message := { g.message with vol := v } }
      g.message.note g.message.instrument (255 - v) with state := state_t.ONE_BYTE } := by
    rw [dispatch_of_two_bytes g v hst, two_bytes_on_vel g v (by omega) (by omega) hop]
  obtain ⟨k, hk, hko, hmin⟩ := exists_least_off g.chip hoff
  have hrun := noteOn_of_least_off g.chip g.message.note g.message.instrument (255 - v)
    k hk hko hmin
  have hchip : (dispatch g v).chip
      = claimed g.chip (slotAt g.chip k) g.message.note g.message.instrument (255 - v) := by
    rw [hdisp]
    show (noteOn g.chip g.message.note g.message.instrument (255 - v)).2 = _
    rw [hrun]
  refine ⟨by rw [hdisp]; rfl, ⟨slotAt g.chip k, hko, ?_, ?_⟩, ?_, ?_, ?_, ?_⟩
  · rw [hchip, claimed_voices, Function.update_same]
  · rw [hchip, claimed_writes, and_0xF_eq _ hc, complement_volume v hv]
  · exact low_nibble _ _ hc (by omega)
  · intro h
    rw [Nat.shiftRight_eq_div_pow]; omega
  · intro h
    rw [Nat.shiftRight_eq_div_pow]; omega
  · intro w hw
    rw [Nat.shiftRight_eq_div_pow, Nat.shiftRight_eq_div_pow]; omega

/-- Witness for C27 on `midVelocity` (instrument 2, voice 1 claimed) with
velocity `0x64`: the byte written to `0x31` is `0x23`. -/
theorem velocity_to_volume_witness :
    midVelocity.state = state_t.TWO_BYTES ∧
      midVelocity.message.opcode = NOTE_ON_OPCODE ∧
      (∃ j, (midVelocity.chip.synth.voices j).state = NOTE_OFF) ∧
      (dispatch midVelocity 0x64).calls = [Call.noteOn 0x40 2 0x9B] ∧
      (dispatch midVelocity 0x64).chip.writes = [(0x31, 0x23), (0x11, 216), (0x21, 0x1A)] ∧
      ((2 <<< 4) ||| (15 - (0x64 >>> 3))) &&& 0xF = 3 := by
  have hoff : ∃ j, (midVelocity.chip.synth.voices j).state = NOTE_OFF :=
    ⟨⟨1, by decide⟩, by decide⟩
  have h := velocity_to_volume midVelocity 0x64 rfl rfl (by decide) (by decide) (by decide) hoff
  exact ⟨rfl, rfl, hoff, h.1, by decide, h.2.2.1⟩

end Synth
